import Mathlib

/-!
# Buffered file I/O with a pre-append mode (`buffered_open.c`)

A shallow embedding of `src/buffered_open.c`.  The C functions become Lean
functions that pass the instance (`buffered_file_t`) and the state of the
operating system (`OS`) explicitly.

* The header `buffered_open.h` is not part of the sources, so the constants
  `BUFFER_SIZE` and `O_PREAPPEND` are parameters of the functions that use
  them, and the record `buffered_file_t` has the fields the C code accesses.
* The operating system is a single file with one descriptor: a byte content,
  a file offset, a ledger of live heap blocks, a trace of the calls issued so
  far and, for each kind of call, a script of outcomes for the calls to come.
* The `while` loops take a fuel argument that bounds the number of
  iterations; running out of fuel is `none`.
* The optional `mode` argument of `buffered_open` only reaches `open`, whose
  effect on the file is not modelled beyond the descriptor it returns; `perror`
  calls are left out.
-/

namespace BufferedOpen

/-! ## The operating system -/

/-- A byte of a file or of a buffer. -/
abbrev Byte := Nat

/-- What the operating system answers to one call.  `full`: the call does all
that was asked.  `short n`: a `read` or `write` transfers at most `n` bytes
(any other call succeeds).  `error`: the call fails and returns `-1` (`NULL`
for `malloc`). -/
inductive Outcome where
  | full : Outcome
  | short (n : Nat) : Outcome
  | error : Outcome
  deriving DecidableEq

/-- The heap blocks the program allocates. -/
inductive Block where
  | bf : Block
  | read_buffer : Block
  | write_buffer : Block
  | temp_buf : Block
  deriving DecidableEq

/-- One call to the operating system or the allocator, as recorded in the trace. -/
inductive Call where
  | sys_open (flags : Int) : Call
  | lseek_set : Call
  | lseek_end : Call
  | read (count : Nat) : Call
  | write (data : List Byte) : Call
  | close : Call
  | malloc (b : Block) : Call
  | free (b : Block) : Call
  deriving DecidableEq

/-- State of the operating system: the content of the one file, the offset of
its descriptor, whether the descriptor is open, the live heap blocks, the
calls issued so far (oldest first) and, for each kind of call, the outcomes of
the calls of that kind to come (first call first; once a script is used up
every call of that kind does all that was asked). -/
structure OS where
  content : List Byte
  offset : Nat
  fd_open : Bool
  live : List Block
  trace : List Call
  open_script : List Outcome
  alloc_script : List Outcome
  seek_script : List Outcome
  read_script : List Outcome
  write_script : List Outcome
  close_script : List Outcome
  deriving DecidableEq

/-- The outcome of the next call of a kind, given the script of that kind. -/
def next_outcome (script : List Outcome) : Outcome :=
  match script with
  | [] => Outcome.full
  | o :: _ => o

/-- The file content after `data` is written at offset `off`: bytes before
`off` are kept (a gap past the end is filled with zero bytes), `data`
replaces what was there, and bytes past `off + data.length` are kept.  Writing
no bytes changes nothing. -/
def write_at (content : List Byte) (off : Nat) (data : List Byte) : List Byte :=
  match data with
  | [] => content
  | _ :: _ =>
    content.take off ++ List.replicate (off - content.length) 0 ++ data
      ++ content.drop (off + data.length)

/-- Model of `memcpy(dst + dpos, src + spos, n)`: the resulting `dst`. -/
def memcpy (dst : List Byte) (dpos : Nat) (src : List Byte) (spos n : Nat) : List Byte :=
  dst.take dpos ++ (src.drop spos).take n ++ dst.drop (dpos + n)

/-- Model of `open(pathname, flags, mode)`: on success the descriptor (number 3)
is open at offset 0 on the file content as it stands; returns the descriptor
or `-1`. -/
def os_open (os : OS) (flags : Int) : Int × OS :=
  let os1 := { os with
    open_script := os.open_script.tail, trace := os.trace ++ [Call.sys_open flags] }
  match next_outcome os.open_script with
  | Outcome.error => (-1, os1)
  | _ => (3, { os1 with offset := 0, fd_open := true })

/-- Model of `malloc`: `true` when the block was obtained. -/
def os_malloc (os : OS) (b : Block) : Bool × OS :=
  let os1 := { os with
    alloc_script := os.alloc_script.tail, trace := os.trace ++ [Call.malloc b] }
  match next_outcome os.alloc_script with
  | Outcome.error => (false, os1)
  | _ => (true, { os1 with live := b :: os.live })

/-- Model of `free`: the block leaves the ledger; `free` cannot fail. -/
def os_free (os : OS) (b : Block) : OS :=
  { os with live := os.live.erase b, trace := os.trace ++ [Call.free b] }

/-- Model of `lseek(fd, 0, SEEK_SET)`: the new offset or `-1`. -/
def os_lseek_set (os : OS) : Int × OS :=
  let os1 := { os with
    seek_script := os.seek_script.tail, trace := os.trace ++ [Call.lseek_set] }
  match next_outcome os.seek_script with
  | Outcome.error => (-1, os1)
  | _ => (0, { os1 with offset := 0 })

/-- Model of `lseek(fd, 0, SEEK_END)`: the new offset or `-1`. -/
def os_lseek_end (os : OS) : Int × OS :=
  let os1 := { os with
    seek_script := os.seek_script.tail, trace := os.trace ++ [Call.lseek_end] }
  match next_outcome os.seek_script with
  | Outcome.error => (-1, os1)
  | _ => (os.content.length, { os1 with offset := os.content.length })

/-- Model of `read(fd, dst, count)`: the return value, the bytes stored at the
start of `dst`, and the new state.  A full read transfers the bytes from the
offset up to `count` of them or to the end of the file. -/
def os_read (os : OS) (count : Nat) : Int × List Byte × OS :=
  let os1 := { os with
    read_script := os.read_script.tail, trace := os.trace ++ [Call.read count] }
  match next_outcome os.read_script with
  | Outcome.error => (-1, [], os1)
  | Outcome.short n =>
      let data := ((os.content.drop os.offset).take count).take n
      (data.length, data, { os1 with offset := os.offset + data.length })
  | Outcome.full =>
      let data := (os.content.drop os.offset).take count
      (data.length, data, { os1 with offset := os.offset + data.length })

/-- Model of `write(fd, src, count)`: the return value and the new state.  The
bytes that are transferred land at the offset, which advances by their number. -/
def os_write (os : OS) (src : List Byte) (count : Nat) : Int × OS :=
  let os1 := { os with
    write_script := os.write_script.tail, trace := os.trace ++ [Call.write (src.take count)] }
  match next_outcome os.write_script with
  | Outcome.error => (-1, os1)
  | Outcome.short n =>
      let data := (src.take count).take n
      (data.length, { os1 with
        content := write_at os.content os.offset data, offset := os.offset + data.length })
  | Outcome.full =>
      let data := src.take count
      (data.length, { os1 with
        content := write_at os.content os.offset data, offset := os.offset + data.length })

/-- Model of `close(fd)`: the descriptor is released, also when `close` reports
an error; returns `0` or `-1`. -/
def os_close (os : OS) : Int × OS :=
  let os1 := { os with
    close_script := os.close_script.tail, trace := os.trace ++ [Call.close],
    fd_open := false }
  match next_outcome os.close_script with
  | Outcome.error => (-1, os1)
  | _ => (0, os1)

/-! ## The instance -/

/-- The record `buffered_file_t`, with the fields `buffered_open.c` uses. -/
structure buffered_file_t where
  fd : Int
  read_buffer : List Byte
  write_buffer : List Byte
  read_buffer_size : Nat
  write_buffer_size : Nat
  read_buffer_pos : Nat
  write_buffer_pos : Nat
  flags : Int
  preappend : Int
  last_operation : Int
  deriving DecidableEq

/-- Number of values of `size_t`. -/
def SIZE_MODULUS : Nat := 2 ^ 64

/-- Subtraction `a - b` of two `size_t` values (both below `SIZE_MODULUS`),
wrapping around. -/
def size_sub (a b : Nat) : Nat := (a + SIZE_MODULUS - b) % SIZE_MODULUS

/-! ## The functions of `buffered_open.c` -/

/-- Embedding of `buffered_open`: the three allocations, the extraction of the
pre-append bit, the call to `open` and the initialisation of the fields.
`none` is the `NULL` result.  Freshly allocated buffers hold `garbage`. -/
def buffered_open (BUFFER_SIZE : Nat) (O_PREAPPEND : Int) (garbage : Byte)
    (flags : Int) (os : OS) : Option buffered_file_t × OS :=
  let (ok_bf, os1) := os_malloc os Block.bf
  if !ok_bf then (none, os1) else
  let (ok_rb, os2) := os_malloc os1 Block.read_buffer
  if !ok_rb then (none, os_free os2 Block.bf) else
  let (ok_wb, os3) := os_malloc os2 Block.write_buffer
  if !ok_wb then (none, os_free (os_free os3 Block.read_buffer) Block.bf) else
  let preappend : Int := if Int.land flags O_PREAPPEND ≠ 0 then 1 else 0
  let flags1 : Int :=
    if Int.land flags O_PREAPPEND ≠ 0 then Int.land flags (Int.lnot O_PREAPPEND) else flags
  let (fd, os4) := os_open os3 flags1
  if fd = -1 then
    (none, os_free (os_free (os_free os4 Block.read_buffer) Block.write_buffer) Block.bf)
  else
    (some { fd := fd
            read_buffer := List.replicate BUFFER_SIZE garbage
            write_buffer := List.replicate BUFFER_SIZE garbage
            read_buffer_size := 0
            write_buffer_size := 0
            read_buffer_pos := 0
            write_buffer_pos := 0
            flags := flags1
            preappend := preappend
            last_operation := -1 }, os4)

/-- Embedding of `buffered_flush`: the return value, the instance and the
operating system afterwards. -/
def buffered_flush (bf : buffered_file_t) (os : OS) : Int × buffered_file_t × OS :=
  if bf.write_buffer_pos > 0 then
    let (bytes_written, os1) := os_write os bf.write_buffer bf.write_buffer_pos
    if bytes_written ≠ (bf.write_buffer_pos : Int) then (-1, bf, os1)
    else (0, { bf with write_buffer_pos := 0 }, os1)
  else (0, bf, os)

/-- The copy loop of `buffered_write` (the same text in both branches):
`some (true, n, _, _)` when the loop ends with `bytes_written = n`,
`some (false, _, _, _)` when a flush inside the loop fails, `none` when the
fuel does not cover the iterations. -/
def write_loop (BUFFER_SIZE : Nat) (buf : List Byte) (count : Nat) :
    Nat → buffered_file_t → OS → Nat → Option (Bool × Nat × buffered_file_t × OS)
  | fuel, bf, os, bytes_written =>
    if bytes_written < count then
      match fuel with
      | 0 => none
      | fuel + 1 =>
        let available_bytes_to_write := size_sub BUFFER_SIZE bf.write_buffer_pos
        let (r, available, bf1, os1) :=
          if available_bytes_to_write = 0 then
            let (r, bf1, os1) := buffered_flush bf os
            (r, BUFFER_SIZE, bf1, os1)
          else ((0 : Int), available_bytes_to_write, bf, os)
        if r = -1 then some (false, bytes_written, bf1, os1)
        else
          let to_write :=
            if count - bytes_written < available then count - bytes_written else available
          let bf2 := { bf1 with
            write_buffer := memcpy bf1.write_buffer bf1.write_buffer_pos buf bytes_written to_write
            write_buffer_pos := bf1.write_buffer_pos + to_write }
          write_loop BUFFER_SIZE buf count fuel bf2 os1 (bytes_written + to_write)
    else some (true, bytes_written, bf, os)

/-- One iteration of the copy loop of `buffered_write`, entered with
`bytes_written < count`: whether the loop is left (the flush of the full buffer
failed), the number of bytes copied (`to_write`), the instance and the
operating system afterwards. -/
def write_iteration (BUFFER_SIZE : Nat) (buf : List Byte) (count : Nat)
    (bf : buffered_file_t) (os : OS) (bytes_written : Nat) :
    Bool × Nat × buffered_file_t × OS :=
  let available_bytes_to_write := size_sub BUFFER_SIZE bf.write_buffer_pos
  let (r, available, bf1, os1) :=
    if available_bytes_to_write = 0 then
      let (r, bf1, os1) := buffered_flush bf os
      (r, BUFFER_SIZE, bf1, os1)
    else ((0 : Int), available_bytes_to_write, bf, os)
  if r = -1 then (true, 0, bf1, os1)
  else
    let to_write :=
      if count - bytes_written < available then count - bytes_written else available
    (false, to_write, { bf1 with
      write_buffer := memcpy bf1.write_buffer bf1.write_buffer_pos buf bytes_written to_write
      write_buffer_pos := bf1.write_buffer_pos + to_write }, os1)

/-- Embedding of `buffered_write`: the return value, the instance and the
operating system afterwards; `none` when the fuel does not cover the loop. -/
def buffered_write (BUFFER_SIZE : Nat) (fuel : Nat) (bf : buffered_file_t) (os : OS)
    (buf : List Byte) (count : Nat) : Option (Int × buffered_file_t × OS) :=
  let (seek, os0) := if bf.last_operation = 0 then os_lseek_end os else ((0 : Int), os)
  if seek = -1 then some (-1, bf, os0) else
  if bf.preappend ≠ 0 then
    let (s1, os1) := os_lseek_set os0
    if s1 = -1 then some (-1, bf, os1) else
    let (ok, os2) := os_malloc os1 Block.temp_buf
    if !ok then some (-1, bf, os2) else
    let (bytes_read, temp_buf, os3) := os_read os2 BUFFER_SIZE
    if bytes_read = -1 then some (-1, bf, os_free os3 Block.temp_buf) else
    let (s2, os4) := os_lseek_set os3
    if s2 = -1 then some (-1, bf, os_free os4 Block.temp_buf) else
    match write_loop BUFFER_SIZE buf count fuel bf os4 0 with
    | none => none
    | some (false, _, bf1, os5) => some (-1, bf1, os_free os5 Block.temp_buf)
    | some (true, bytes_written, bf1, os5) =>
      let (r, bf2, os6) := buffered_flush bf1 os5
      if r = -1 then some (-1, bf2, os_free os6 Block.temp_buf) else
      let (w, os7) :=
        if bytes_read > 0 then os_write os6 temp_buf bytes_read.toNat else ((0 : Int), os6)
      if w = -1 then some (-1, bf2, os_free os7 Block.temp_buf) else
      some (bytes_written, { bf2 with last_operation := 1 }, os_free os7 Block.temp_buf)
  else
    match write_loop BUFFER_SIZE buf count fuel bf os0 0 with
    | none => none
    | some (false, _, bf1, os1) => some (-1, bf1, os1)
    | some (true, bytes_written, bf1, os1) =>
      some (bytes_written, { bf1 with last_operation := 1 }, os1)

/-- The first statement of the loop body of `buffered_read`: when the read
buffer is used up, fill it with one `read` of `BUFFER_SIZE` bytes.  The flag is
`true` when the loop is left by `break` (the `read` returned 0 or less). -/
def refill (BUFFER_SIZE : Nat) (bf : buffered_file_t) (os : OS) : Bool × buffered_file_t × OS :=
  if bf.read_buffer_pos ≥ bf.read_buffer_size then
    let (bytes_read_fill, data, os1) := os_read os BUFFER_SIZE
    let bf1 := { bf with read_buffer := memcpy bf.read_buffer 0 data 0 data.length }
    if bytes_read_fill ≤ 0 then (true, bf1, os1)
    else (false, { bf1 with
      read_buffer_size := bytes_read_fill.toNat
      read_buffer_pos := 0 }, os1)
  else (false, bf, os)

/-- The loop of `buffered_read`: the number of bytes produced, the instance,
the operating system and the caller's buffer when the loop ends; `none` when
the fuel does not cover the iterations. -/
def read_loop (BUFFER_SIZE : Nat) (count : Nat) :
    Nat → buffered_file_t → OS → List Byte → Nat → Option (Nat × buffered_file_t × OS × List Byte)
  | fuel, bf, os, buf, bytes_read =>
    if bytes_read < count then
      match fuel with
      | 0 => none
      | fuel + 1 =>
        let (stop, bf1, os1) := refill BUFFER_SIZE bf os
        if stop then some (bytes_read, bf1, os1, buf)
        else
          let available_data := size_sub bf1.read_buffer_size bf1.read_buffer_pos
          let to_read :=
            if count - bytes_read < available_data then count - bytes_read else available_data
          let buf1 := memcpy buf bytes_read bf1.read_buffer bf1.read_buffer_pos to_read
          let bf2 := { bf1 with read_buffer_pos := bf1.read_buffer_pos + to_read }
          read_loop BUFFER_SIZE count fuel bf2 os1 buf1 (bytes_read + to_read)
    else some (bytes_read, bf, os, buf)

/-- One iteration of the loop of `buffered_read`, entered with
`bytes_read < count`: whether the loop is left by `break`, the number of bytes
copied (`to_read`), the instance, the operating system and the caller's buffer
afterwards. -/
def read_iteration (BUFFER_SIZE : Nat) (count : Nat) (bf : buffered_file_t) (os : OS)
    (buf : List Byte) (bytes_read : Nat) :
    Bool × Nat × buffered_file_t × OS × List Byte :=
  let (stop, bf1, os1) := refill BUFFER_SIZE bf os
  if stop then (true, 0, bf1, os1, buf)
  else
    let available_data := size_sub bf1.read_buffer_size bf1.read_buffer_pos
    let to_read :=
      if count - bytes_read < available_data then count - bytes_read else available_data
    (false, to_read, { bf1 with read_buffer_pos := bf1.read_buffer_pos + to_read }, os1,
      memcpy buf bytes_read bf1.read_buffer bf1.read_buffer_pos to_read)

/-- Embedding of `buffered_read`: the return value, the instance, the
operating system and the caller's buffer afterwards; `none` when the fuel
does not cover the loop. -/
def buffered_read (BUFFER_SIZE : Nat) (fuel : Nat) (bf : buffered_file_t) (os : OS)
    (buf : List Byte) (count : Nat) : Option (Int × buffered_file_t × OS × List Byte) :=
  let (r, bf0, os0) := buffered_flush bf os
  if r = -1 then some (-1, bf0, os0, buf) else
  match read_loop BUFFER_SIZE count fuel bf0 os0 buf 0 with
  | none => none
  | some (bytes_read, bf1, os1, buf1) =>
    let bf2 := { bf1 with last_operation := 0 }
    if bytes_read < count then some (bytes_read, bf2, os1, buf1.set bytes_read 0)
    else some (bytes_read, bf2, os1, buf1)

/-- Embedding of `free_before_exit`. -/
def free_before_exit (os : OS) : OS :=
  os_free (os_free (os_free os Block.read_buffer) Block.write_buffer) Block.bf

/-- Embedding of `buffered_close`: the return value and the operating system
afterwards (the instance no longer exists). -/
def buffered_close (bf : buffered_file_t) (os : OS) : Int × OS :=
  let (r, _, os1) := buffered_flush bf os
  if r = -1 then (-1, free_before_exit os1) else
  let (result, os2) := os_close os1
  (result, free_before_exit os2)

/-- The pre-append branch of `buffered_write` from the copy loop on (the loop,
the flush of the new bytes and the write of the old bytes), as a function of the
operating system `os4` in which the loop starts and of the result `bytes_read`,
`temp_buf` of the `read` of the old content; `buffered_write_preappend_cases`
relates it to `buffered_write`. -/
def preappend_finish (BUFFER_SIZE : Nat) (fuel : Nat) (bf : buffered_file_t) (os4 : OS)
    (buf : List Byte) (count : Nat) (bytes_read : Int) (temp_buf : List Byte) :
    Option (Int × buffered_file_t × OS) :=
  match write_loop BUFFER_SIZE buf count fuel bf os4 0 with
  | none => none
  | some (false, _, bf1, os5) => some (-1, bf1, os_free os5 Block.temp_buf)
  | some (true, bytes_written, bf1, os5) =>
    let (r, bf2, os6) := buffered_flush bf1 os5
    if r = -1 then some (-1, bf2, os_free os6 Block.temp_buf) else
    let (w, os7) :=
      if bytes_read > 0 then os_write os6 temp_buf bytes_read.toNat else ((0 : Int), os6)
    if w = -1 then some (-1, bf2, os_free os7 Block.temp_buf) else
    some (bytes_written, { bf2 with last_operation := 1 }, os_free os7 Block.temp_buf)

/-! ## Predicates used in the statements -/

/-- The bytes of the file before offset `off`, padded with zero bytes up to `off`. -/
def padded (content : List Byte) (off : Nat) : List Byte :=
  content.take off ++ List.replicate (off - content.length) 0

/-- Every call of the script does all that was asked. -/
def all_full (script : List Outcome) : Prop := ∀ o ∈ script, o = Outcome.full

/-- No call of the script fails. -/
def no_error (script : List Outcome) : Prop := ∀ o ∈ script, o ≠ Outcome.error

/-- No call a `buffered_write` can make fails: every `write` transfers all it
was asked to (a short `write` counts as a failure), and no `read`, no `lseek`
and no `malloc` reports an error (a `read` may be short). -/
def no_call_fails (os : OS) : Prop :=
  all_full os.write_script ∧ no_error os.read_script ∧
  no_error os.seek_script ∧ no_error os.alloc_script

/-- The state `os2` is reached from `os1` by `write` calls only, which all
completed in full and wrote, in total, `data` at the offset of `os1`; the
`write` calls to come complete in full too. -/
structure Wrote (os1 os2 : OS) (data : List Byte) : Prop where
  full : all_full os2.write_script
  content : os2.content = write_at os1.content os1.offset data
  offset : os2.offset = os1.offset + data.length
  fd_open : os2.fd_open = os1.fd_open
  live : os2.live = os1.live
  open_script : os2.open_script = os1.open_script
  alloc_script : os2.alloc_script = os1.alloc_script
  seek_script : os2.seek_script = os1.seek_script
  read_script : os2.read_script = os1.read_script
  close_script : os2.close_script = os1.close_script

/-- The state `os2` differs from `os1` at most in the offset, the script of the
`read` calls and the trace: what `read` calls can change. -/
structure ReadOnly (os1 os2 : OS) : Prop where
  content : os2.content = os1.content
  fd_open : os2.fd_open = os1.fd_open
  live : os2.live = os1.live
  open_script : os2.open_script = os1.open_script
  alloc_script : os2.alloc_script = os1.alloc_script
  seek_script : os2.seek_script = os1.seek_script
  write_script : os2.write_script = os1.write_script
  close_script : os2.close_script = os1.close_script

/-- The instance `bf2` differs from `bf1` at most in the read buffer, its size
and its position. -/
def SameButReadSide (bf1 bf2 : buffered_file_t) : Prop :=
  bf2 = { bf1 with
    read_buffer := bf2.read_buffer
    read_buffer_size := bf2.read_buffer_size
    read_buffer_pos := bf2.read_buffer_pos }

/-- The state `os2` differs from `os1` at most in the file content, the offset,
the script of the `write` calls and the trace: what `write` calls can change. -/
structure WriteOnly (os1 os2 : OS) : Prop where
  fd_open : os2.fd_open = os1.fd_open
  live : os2.live = os1.live
  open_script : os2.open_script = os1.open_script
  alloc_script : os2.alloc_script = os1.alloc_script
  seek_script : os2.seek_script = os1.seek_script
  read_script : os2.read_script = os1.read_script
  close_script : os2.close_script = os1.close_script

/-- The instance `bf2` differs from `bf1` at most in the write buffer, its
position and the mark of the last operation. -/
def SameButWriteSide (bf1 bf2 : buffered_file_t) : Prop :=
  bf2 = { bf1 with
    write_buffer := bf2.write_buffer
    write_buffer_pos := bf2.write_buffer_pos
    last_operation := bf2.last_operation }

/-- The buffer position invariant for a buffer size:
`read_buffer_pos ≤ read_buffer_size ≤ BUFFER_SIZE` and
`write_buffer_pos ≤ BUFFER_SIZE` (the lower bounds hold in `Nat`). -/
def buffer_invariant (BUFFER_SIZE : Nat) (bf : buffered_file_t) : Prop :=
  bf.read_buffer_pos ≤ bf.read_buffer_size ∧ bf.read_buffer_size ≤ BUFFER_SIZE ∧
  bf.write_buffer_pos ≤ BUFFER_SIZE

/-- Both buffers of the instance have `BUFFER_SIZE` bytes, as allocated by
`buffered_open`. -/
def buffers_allocated (BUFFER_SIZE : Nat) (bf : buffered_file_t) : Prop :=
  bf.read_buffer.length = BUFFER_SIZE ∧ bf.write_buffer.length = BUFFER_SIZE

/-! ## Clients -/

/-- A client that calls `buffered_write` on each byte string in turn, with
`count` the length of the string; `none` when the fuel does not cover a call. -/
def write_all (BUFFER_SIZE : Nat) (fuel : Nat) :
    buffered_file_t → OS → List (List Byte) → Option (buffered_file_t × OS)
  | bf, os, [] => some (bf, os)
  | bf, os, w :: ws =>
    match buffered_write BUFFER_SIZE fuel bf os w w.length with
    | none => none
    | some (_, bf1, os1) => write_all BUFFER_SIZE fuel bf1 os1 ws

/-- A client that opens an instance, calls `buffered_write` once and closes:
the value `buffered_write` returned and the operating system after
`buffered_close`; `none` when `buffered_open` returns no instance or the fuel
does not cover the write. -/
def write_once_and_close (BUFFER_SIZE : Nat) (O_PREAPPEND : Int) (garbage : Byte) (flags : Int)
    (fuel : Nat) (os : OS) (buf : List Byte) (count : Nat) : Option (Int × OS) :=
  match buffered_open BUFFER_SIZE O_PREAPPEND garbage flags os with
  | (none, _) => none
  | (some bf, os1) =>
    match buffered_write BUFFER_SIZE fuel bf os1 buf count with
    | none => none
    | some (r, bf2, os2) => some (r, (buffered_close bf2 os2).2)

/-- A client that calls `buffered_flush` twice in a row: what the second call
returns and leaves. -/
def flush_twice (bf : buffered_file_t) (os : OS) : Int × buffered_file_t × OS :=
  let (_, bf1, os1) := buffered_flush bf os
  buffered_flush bf1 os1

/-- The `write` calls issued so far, oldest first, each with the bytes it was
asked to write. -/
def writes_issued (os : OS) : List (List Byte) :=
  os.trace.filterMap (fun c =>
    match c with
    | Call.write data => some data
    | _ => none)

/-- The second instance has the descriptor, the flags and the mode of the first. -/
def SameHandle (bf1 bf2 : buffered_file_t) : Prop :=
  bf2.fd = bf1.fd ∧ bf2.flags = bf1.flags ∧ bf2.preappend = bf1.preappend

/-- The `open` calls issued so far, oldest first, each with the flags it was given. -/
def opens_issued (os : OS) : List Int :=
  os.trace.filterMap (fun c =>
    match c with
    | Call.sys_open flags => some flags
    | _ => none)

/-- The `read` calls issued so far, oldest first, each with the count it asked for. -/
def reads_issued (os : OS) : List Nat :=
  os.trace.filterMap (fun c =>
    match c with
    | Call.read count => some count
    | _ => none)

/-! ## Concrete states -/

/-- The instance `buffered_open` returns for a buffer size, the bytes found in
fresh buffers, the stored flags and the pre-append mark. -/
def fresh_instance (BUFFER_SIZE : Nat) (garbage : Byte) (flags preappend : Int) :
    buffered_file_t :=
  { fd := 3
    read_buffer := List.replicate BUFFER_SIZE garbage
    write_buffer := List.replicate BUFFER_SIZE garbage
    read_buffer_size := 0
    write_buffer_size := 0
    read_buffer_pos := 0
    write_buffer_pos := 0
    flags := flags
    preappend := preappend
    last_operation := -1 }

/-- An operating system before any call, holding a file with the given content;
every call to come does all that was asked. -/
def boot (content : List Byte) : OS :=
  { content := content, offset := 0, fd_open := false, live := [], trace := [],
    open_script := [], alloc_script := [], seek_script := [], read_script := [],
    write_script := [], close_script := [] }

/-- An operating system before any call, holding a file with the given content,
with the given outcomes for the `lseek`, `read`, `write` and `close` calls to
come; no allocation and no `open` fails. -/
def boot_scripted (content : List Byte)
    (seek_script read_script write_script close_script : List Outcome) : OS :=
  { boot content with
    seek_script := seek_script
    read_script := read_script
    write_script := write_script
    close_script := close_script }

/-! # Theorems -/

/-! ## Facts about lists, `write_at` and `memcpy` -/

theorem padded_length (content : List Byte) (off : Nat) : (padded content off).length = off := by
  simp only [padded, List.length_append, List.length_take, List.length_replicate]
  omega

theorem write_at_nil (content : List Byte) (off : Nat) : write_at content off [] = content := rfl

theorem write_at_cons (content : List Byte) (off : Nat) (b : Byte) (data : List Byte) :
    write_at content off (b :: data)
      = padded content off ++ (b :: data) ++ content.drop (off + (b :: data).length) := rfl

theorem write_at_of_le (content : List Byte) (off : Nat) (data : List Byte)
    (h : off ≤ content.length) :
    write_at content off data = content.take off ++ data ++ content.drop (off + data.length) := by
  cases data with
  | nil => simp [write_at]
  | cons b data =>
    rw [write_at_cons, padded, Nat.sub_eq_zero_of_le h]
    simp

theorem write_at_length_ge (content : List Byte) (off : Nat) (data : List Byte)
    (h : off ≤ content.length) : off + data.length ≤ (write_at content off data).length := by
  rw [write_at_of_le _ _ _ h]
  simp only [List.length_append, List.length_take, List.length_drop]
  omega

theorem padded_prefix (front back : List Byte) (n : Nat) (h : front.length = n) :
    padded (front ++ back) n = front := by
  unfold padded
  rw [List.take_left' h, List.length_append, h]
  have : n - (n + back.length) = 0 := by omega
  rw [this]
  simp

/-- Two consecutive writes are one write of the concatenation. -/
theorem write_at_append (content : List Byte) (off : Nat) (d1 d2 : List Byte) :
    write_at (write_at content off d1) (off + d1.length) d2 = write_at content off (d1 ++ d2) := by
  cases d1 with
  | nil => simp [write_at_nil]
  | cons b1 t1 =>
    cases d2 with
    | nil => simp [write_at_nil]
    | cons b2 t2 =>
      have hP := padded_length content off
      rw [write_at_cons content off b1 t1, write_at_cons, List.cons_append, write_at_cons]
      have hlen : (padded content off ++ b1 :: t1).length = off + (b1 :: t1).length := by
        rw [List.length_append, hP]
      have e1 : padded (padded content off ++ b1 :: t1
            ++ List.drop (off + (b1 :: t1).length) content) (off + (b1 :: t1).length)
          = padded content off ++ b1 :: t1 :=
        padded_prefix _ _ _ hlen
      have e2 : List.drop (off + (b1 :: t1).length + (b2 :: t2).length)
          (padded content off ++ b1 :: t1 ++ List.drop (off + (b1 :: t1).length) content)
          = List.drop (off + (b1 :: (t1 ++ b2 :: t2)).length) content := by
        rw [← List.drop_drop, List.drop_left' hlen, List.drop_drop]
        congr 1
        simp only [List.length_cons, List.length_append]
        omega
      rw [e1, e2]
      simp

theorem write_at_zero (content data : List Byte) :
    write_at content 0 data = data ++ content.drop data.length := by
  rw [write_at_of_le _ _ _ (Nat.zero_le _)]
  simp

/-- Splitting a slice `src[i .. i+n)` at `k ≤ n`. -/
theorem slice_split (src : List Byte) (i k n : Nat) (h : k ≤ n) :
    (src.drop i).take k ++ (src.drop (i + k)).take (n - k) = (src.drop i).take n := by
  have : n = k + (n - k) := by omega
  conv_rhs => rw [this, List.take_add, List.drop_drop]

theorem memcpy_length (dst : List Byte) (dpos : Nat) (src : List Byte) (spos n : Nat)
    (hd : dpos + n ≤ dst.length) (hs : spos + n ≤ src.length) :
    (memcpy dst dpos src spos n).length = dst.length := by
  simp only [memcpy, List.length_append, List.length_take, List.length_drop]
  omega

/-- After `memcpy`, the first `dpos + n` bytes are the old first `dpos` bytes
followed by the copied slice. -/
theorem memcpy_take (dst : List Byte) (dpos : Nat) (src : List Byte) (spos n : Nat)
    (hd : dpos ≤ dst.length) (hs : spos + n ≤ src.length) :
    (memcpy dst dpos src spos n).take (dpos + n) = dst.take dpos ++ (src.drop spos).take n := by
  unfold memcpy
  apply List.take_left'
  simp only [List.length_append, List.length_take, List.length_drop]
  omega

theorem memcpy_drop (dst : List Byte) (dpos : Nat) (src : List Byte) (spos n : Nat)
    (hd : dpos ≤ dst.length) (hs : spos + n ≤ src.length) :
    (memcpy dst dpos src spos n).drop (dpos + n) = dst.drop (dpos + n) := by
  unfold memcpy
  apply List.drop_left'
  simp only [List.length_append, List.length_take, List.length_drop]
  omega

/-! ## The operating system when calls succeed -/

theorem all_full_next {s : List Outcome} (h : all_full s) : next_outcome s = Outcome.full := by
  cases s with
  | nil => rfl
  | cons o t => exact h o (List.mem_cons_self _ _)

theorem all_full_tail {s : List Outcome} (h : all_full s) : all_full s.tail :=
  fun o ho => h o (List.mem_of_mem_tail ho)

theorem no_error_next {s : List Outcome} (h : no_error s) : next_outcome s ≠ Outcome.error := by
  cases s with
  | nil => simp [next_outcome]
  | cons o t => exact h o (List.mem_cons_self _ _)

theorem no_error_tail {s : List Outcome} (h : no_error s) : no_error s.tail :=
  fun o ho => h o (List.mem_of_mem_tail ho)

theorem all_full_no_error {s : List Outcome} (h : all_full s) : no_error s := by
  intro o ho he
  have := h o ho
  rw [he] at this
  cases this

theorem wrote_refl {os : OS} (h : all_full os.write_script) : Wrote os os [] :=
  ⟨h, by rw [write_at_nil], by simp, rfl, rfl, rfl, rfl, rfl, rfl, rfl⟩

theorem wrote_trans {os1 os2 os3 : OS} {d1 d2 : List Byte}
    (h12 : Wrote os1 os2 d1) (h23 : Wrote os2 os3 d2) : Wrote os1 os3 (d1 ++ d2) where
  full := h23.full
  content := by rw [h23.content, h12.content, h12.offset, write_at_append]
  offset := by rw [h23.offset, h12.offset, List.length_append, Nat.add_assoc]
  fd_open := h23.fd_open.trans h12.fd_open
  live := h23.live.trans h12.live
  open_script := h23.open_script.trans h12.open_script
  alloc_script := h23.alloc_script.trans h12.alloc_script
  seek_script := h23.seek_script.trans h12.seek_script
  read_script := h23.read_script.trans h12.read_script
  close_script := h23.close_script.trans h12.close_script

theorem os_write_full {os : OS} (h : all_full os.write_script) (src : List Byte) (count : Nat)
    (hc : count ≤ src.length) :
    ∃ os2, os_write os src count = ((count : Int), os2) ∧ Wrote os os2 (src.take count) := by
  have hl : (src.take count).length = count := by
    rw [List.length_take]; omega
  refine ⟨(os_write os src count).2, ?_, ?_⟩ <;> (unfold os_write; rw [all_full_next h])
  · simp only [hl]
  · exact ⟨all_full_tail h, rfl, rfl, rfl, rfl, rfl, rfl, rfl, rfl, rfl⟩

theorem size_sub_of_le {a b : Nat} (h : b ≤ a) (ha : a < SIZE_MODULUS) : size_sub a b = a - b := by
  unfold size_sub
  have : a + SIZE_MODULUS - b = (a - b) + SIZE_MODULUS := by omega
  rw [this, Nat.add_mod_right]
  exact Nat.mod_eq_of_lt (by omega)

/-- When the write of the pending bytes completes in full, `buffered_flush`
returns 0, empties the write buffer and the pending bytes are in the file. -/
theorem buffered_flush_full (bf : buffered_file_t) {os : OS} (h : all_full os.write_script)
    (hp : bf.write_buffer_pos ≤ bf.write_buffer.length) :
    ∃ os2, buffered_flush bf os = (0, { bf with write_buffer_pos := 0 }, os2) ∧
      Wrote os os2 (bf.write_buffer.take bf.write_buffer_pos) := by
  by_cases h0 : bf.write_buffer_pos > 0
  · obtain ⟨os2, hw, hW⟩ := os_write_full h bf.write_buffer bf.write_buffer_pos hp
    refine ⟨os2, ?_, hW⟩
    unfold buffered_flush
    rw [if_pos h0, hw]
    simp
  · have hz : bf.write_buffer_pos = 0 := by omega
    refine ⟨os, ?_, ?_⟩
    · unfold buffered_flush
      rw [if_neg h0]
      cases bf
      simp_all
    · rw [hz, List.take_zero]
      exact wrote_refl h

/-! ## The copy loop of `buffered_write` -/

/-- When the bytes still to copy fit in the free part of the write buffer, the
loop copies them in one iteration and makes no call to the operating system. -/
theorem write_loop_fits (B : Nat) (hM : B < SIZE_MODULUS) (buf : List Byte) (count : Nat)
    (fuel : Nat) (bf : buffered_file_t) (os : OS) (bw : Nat)
    (hbw : bw ≤ count) (hfit : bf.write_buffer_pos + (count - bw) ≤ B)
    (hpos : bf.write_buffer_pos < B) (hfuel : bw < count → 0 < fuel) :
    write_loop B buf count fuel bf os bw
      = some (true, count,
          { bf with
            write_buffer := memcpy bf.write_buffer bf.write_buffer_pos buf bw (count - bw)
            write_buffer_pos := bf.write_buffer_pos + (count - bw) }, os) := by
  have hsub : size_sub B bf.write_buffer_pos = B - bf.write_buffer_pos :=
    size_sub_of_le (by omega) hM
  by_cases hlt : bw < count
  · obtain ⟨n, rfl⟩ : ∃ n, fuel = n + 1 := ⟨fuel - 1, by have := hfuel hlt; omega⟩
    have hne : ¬ (B - bf.write_buffer_pos = 0) := by omega
    have hto : (if count - bw < B - bf.write_buffer_pos then count - bw
        else B - bf.write_buffer_pos) = count - bw := by
      split <;> omega
    have hdone : ¬ (bw + (count - bw) < count) := by omega
    have hcnt : bw + (count - bw) = count := by omega
    rw [write_loop]
    simp only [hlt, if_true, hsub, hne, if_false, hto]
    rw [write_loop.eq_def]
    simp [hdone, hcnt]
  · have hz : count - bw = 0 := by omega
    have hcnt : bw = count := by omega
    rw [write_loop.eq_def]
    simp only [hlt, if_false, hz, Nat.add_zero]
    subst hcnt
    simp [memcpy]

theorem bf_eta (bf : buffered_file_t) :
    { bf with write_buffer := bf.write_buffer, write_buffer_pos := bf.write_buffer_pos } = bf := by
  cases bf; rfl

/-- When every write completes in full, the copy loop ends with `bytes_written = count`;
the bytes written to the file followed by the bytes pending afterwards are the
bytes pending before followed by the bytes copied. -/
theorem write_loop_full (B : Nat) (hB : 0 < B) (hM : B < SIZE_MODULUS) (buf : List Byte)
    (count : Nat) (hc : count ≤ buf.length) :
    ∀ (fuel : Nat) (bf : buffered_file_t) (os : OS) (bw : Nat),
      bw ≤ count → count ≤ bw + fuel → all_full os.write_script →
      bf.write_buffer.length = B → bf.write_buffer_pos ≤ B →
      ∃ wb pos os2 d,
        write_loop B buf count fuel bf os bw
          = some (true, count, { bf with write_buffer := wb, write_buffer_pos := pos }, os2) ∧
        Wrote os os2 d ∧ wb.length = B ∧ pos ≤ B ∧
        d ++ wb.take pos
          = bf.write_buffer.take bf.write_buffer_pos ++ (buf.drop bw).take (count - bw) := by
  intro fuel
  induction fuel with
  | zero =>
    intro bf os bw hbw hfuel hcalm _ hpos
    have hcnt : bw = count := by omega
    subst hcnt
    refine ⟨bf.write_buffer, bf.write_buffer_pos, os, [], ?_, wrote_refl hcalm, by assumption,
      hpos, by simp⟩
    rw [write_loop.eq_def, bf_eta]
    simp
  | succ n ih =>
    intro bf os bw hbw hfuel hcalm hlen hpos
    by_cases hlt : bw < count
    · by_cases hfull : bf.write_buffer_pos = B
      · -- the buffer is full: flush, then copy into the empty buffer
        have hsub : size_sub B bf.write_buffer_pos = 0 := by
          rw [size_sub_of_le hpos hM]; omega
        obtain ⟨os1, hf, hW⟩ := buffered_flush_full bf hcalm (by omega)
        have htw : ∃ tw, tw = (if count - bw < B then count - bw else B) ∧ 0 < tw ∧
            tw ≤ B ∧ bw + tw ≤ count := by
          refine ⟨_, rfl, ?_⟩
          split <;> omega
        obtain ⟨tw, htw_def, htw0, htwB, htwc⟩ := htw
        have hmlen : (memcpy bf.write_buffer 0 buf bw tw).length = B := by
          rw [memcpy_length _ _ _ _ _ (by omega) (by omega), hlen]
        obtain ⟨wb, pos, os2, d, hl, hW2, hwb, hposB, hd⟩ :=
          ih { bf with write_buffer := memcpy bf.write_buffer 0 buf bw tw, write_buffer_pos := tw }
            os1 (bw + tw) htwc (by omega) hW.full hmlen htwB
        refine ⟨wb, pos, os2, bf.write_buffer.take bf.write_buffer_pos ++ d, ?_,
          wrote_trans hW hW2, hwb, hposB, ?_⟩
        · rw [write_loop]
          simp only [hlt, if_true, hsub, hf, ← htw_def, Nat.zero_add]
          simp only [show ((0 : Int) = -1) = False from by simp, if_false]
          exact hl
        · have hmt := memcpy_take bf.write_buffer 0 buf bw tw (by omega) (by omega)
          simp only [Nat.zero_add, List.take_zero, List.nil_append] at hmt
          simp only [hmt] at hd
          rw [List.append_assoc, hd, ← slice_split buf bw tw (count - bw) (by omega)]
          congr 2
          rw [Nat.sub_sub]
      · -- there is room: copy into the free part of the buffer
        have hsub : size_sub B bf.write_buffer_pos = B - bf.write_buffer_pos :=
          size_sub_of_le hpos hM
        have hne : ¬ (B - bf.write_buffer_pos = 0) := by omega
        have htw : ∃ tw, tw = (if count - bw < B - bf.write_buffer_pos then count - bw
            else B - bf.write_buffer_pos) ∧ 0 < tw ∧
            bf.write_buffer_pos + tw ≤ B ∧ bw + tw ≤ count := by
          refine ⟨_, rfl, ?_⟩
          split <;> omega
        obtain ⟨tw, htw_def, htw0, htwB, htwc⟩ := htw
        have hmlen : (memcpy bf.write_buffer bf.write_buffer_pos buf bw tw).length = B := by
          rw [memcpy_length _ _ _ _ _ (by omega) (by omega), hlen]
        obtain ⟨wb, pos, os2, d, hl, hW2, hwb, hposB, hd⟩ :=
          ih { bf with
              write_buffer := memcpy bf.write_buffer bf.write_buffer_pos buf bw tw
              write_buffer_pos := bf.write_buffer_pos + tw }
            os (bw + tw) htwc (by omega) hcalm hmlen htwB
        refine ⟨wb, pos, os2, d, ?_, hW2, hwb, hposB, ?_⟩
        · rw [write_loop]
          simp only [hlt, if_true, hsub, hne, if_false, ← htw_def]
          simp only [show ((0 : Int) = -1) = False from by simp, if_false]
          exact hl
        · have hmt := memcpy_take bf.write_buffer bf.write_buffer_pos buf bw tw
            (by omega) (by omega)
          simp only [hmt] at hd
          rw [hd, List.append_assoc, ← slice_split buf bw tw (count - bw) (by omega)]
          congr 3
          rw [Nat.sub_sub]
    · have hcnt : bw = count := by omega
      subst hcnt
      refine ⟨bf.write_buffer, bf.write_buffer_pos, os, [], ?_, wrote_refl hcalm, hlen,
        hpos, by simp⟩
      rw [write_loop.eq_def, bf_eta]
      simp

/-! ## What each call leaves unchanged -/

@[simp] theorem os_malloc_content (os : OS) (b : Block) :
    (os_malloc os b).2.content = os.content := by unfold os_malloc; split <;> rfl

@[simp] theorem os_malloc_offset (os : OS) (b : Block) :
    (os_malloc os b).2.offset = os.offset := by unfold os_malloc; split <;> rfl

@[simp] theorem os_malloc_fd_open (os : OS) (b : Block) :
    (os_malloc os b).2.fd_open = os.fd_open := by unfold os_malloc; split <;> rfl

@[simp] theorem os_malloc_write_script (os : OS) (b : Block) :
    (os_malloc os b).2.write_script = os.write_script := by unfold os_malloc; split <;> rfl

@[simp] theorem os_malloc_read_script (os : OS) (b : Block) :
    (os_malloc os b).2.read_script = os.read_script := by unfold os_malloc; split <;> rfl

@[simp] theorem os_malloc_seek_script (os : OS) (b : Block) :
    (os_malloc os b).2.seek_script = os.seek_script := by unfold os_malloc; split <;> rfl

@[simp] theorem os_malloc_close_script (os : OS) (b : Block) :
    (os_malloc os b).2.close_script = os.close_script := by unfold os_malloc; split <;> rfl

@[simp] theorem os_malloc_alloc_script (os : OS) (b : Block) :
    (os_malloc os b).2.alloc_script = os.alloc_script.tail := by unfold os_malloc; split <;> rfl

@[simp] theorem os_open_content (os : OS) (flags : Int) :
    (os_open os flags).2.content = os.content := by unfold os_open; split <;> rfl

@[simp] theorem os_open_write_script (os : OS) (flags : Int) :
    (os_open os flags).2.write_script = os.write_script := by unfold os_open; split <;> rfl

@[simp] theorem os_open_read_script (os : OS) (flags : Int) :
    (os_open os flags).2.read_script = os.read_script := by unfold os_open; split <;> rfl

@[simp] theorem os_open_seek_script (os : OS) (flags : Int) :
    (os_open os flags).2.seek_script = os.seek_script := by unfold os_open; split <;> rfl

@[simp] theorem os_open_close_script (os : OS) (flags : Int) :
    (os_open os flags).2.close_script = os.close_script := by unfold os_open; split <;> rfl

@[simp] theorem os_open_alloc_script (os : OS) (flags : Int) :
    (os_open os flags).2.alloc_script = os.alloc_script := by unfold os_open; split <;> rfl

theorem os_open_ok {os : OS} {flags : Int} (h : ¬ (os_open os flags).1 = -1) :
    (os_open os flags).2.offset = 0 ∧ (os_open os flags).2.fd_open = true := by
  unfold os_open at h ⊢
  split
  · rename_i he
    rw [he] at h
    simp at h
  · exact ⟨rfl, rfl⟩

@[simp] theorem os_free_fd_open (os : OS) (b : Block) : (os_free os b).fd_open = os.fd_open := rfl

@[simp] theorem os_close_content (os : OS) : (os_close os).2.content = os.content := by
  unfold os_close; split <;> rfl

@[simp] theorem os_close_live (os : OS) : (os_close os).2.live = os.live := by
  unfold os_close; split <;> rfl

@[simp] theorem os_close_fd_open (os : OS) : (os_close os).2.fd_open = false := by
  unfold os_close; split <;> rfl

@[simp] theorem free_before_exit_content (os : OS) :
    (free_before_exit os).content = os.content := rfl

@[simp] theorem free_before_exit_fd_open (os : OS) :
    (free_before_exit os).fd_open = os.fd_open := rfl

/-! ## Opening -/

/-- What `buffered_open` leaves when it returns an instance. -/
theorem buffered_open_some {B : Nat} {O_PREAPPEND : Int} {garbage : Byte} {flags : Int}
    {os os1 : OS} {bf : buffered_file_t}
    (h : buffered_open B O_PREAPPEND garbage flags os = (some bf, os1)) :
    (bf.read_buffer = List.replicate B garbage ∧ bf.write_buffer = List.replicate B garbage ∧
      bf.read_buffer_size = 0 ∧ bf.read_buffer_pos = 0 ∧ bf.write_buffer_pos = 0 ∧
      bf.last_operation = -1 ∧
      bf.preappend = (if Int.land flags O_PREAPPEND ≠ 0 then 1 else 0)) ∧
    (os1.content = os.content ∧ os1.offset = 0 ∧ os1.fd_open = true ∧
      os1.write_script = os.write_script ∧ os1.read_script = os.read_script ∧
      os1.seek_script = os.seek_script ∧ os1.close_script = os.close_script ∧
      os1.alloc_script = os.alloc_script.tail.tail.tail) := by
  unfold buffered_open at h
  simp only [] at h
  split_ifs at h with h1 h2 h3 h4 h5 h6
  all_goals first
    | (exfalso; simp at h; done)
    | (obtain ⟨hbf, hos⟩ := Prod.mk.inj h
       have hbf2 := Option.some.inj hbf
       subst hbf2
       subst hos
       first
         | (obtain ⟨ho, hf⟩ := os_open_ok h5
            simp [ho, hf, h4]; done)
         | (obtain ⟨ho, hf⟩ := os_open_ok h6
            simp [ho, hf, h4]))

/-! ## Writing outside pre-append mode -/

/-- A write outside pre-append mode on an instance whose last operation was not
a read, when every `write` completes in full: it returns `count`, and the bytes
written to the file followed by the bytes pending afterwards are the bytes
pending before followed by the new bytes. -/
theorem buffered_write_plain_full (B : Nat) (hB : 0 < B) (hM : B < SIZE_MODULUS)
    (fuel : Nat) (bf : buffered_file_t) (os : OS) (buf : List Byte) (count : Nat)
    (hc : count ≤ buf.length) (hfuel : count ≤ fuel) (hw : all_full os.write_script)
    (hlen : bf.write_buffer.length = B) (hpos : bf.write_buffer_pos ≤ B)
    (hpre : bf.preappend = 0) (hlast : bf.last_operation ≠ 0) :
    ∃ wb pos os2 d,
      buffered_write B fuel bf os buf count
        = some ((count : Int),
            { bf with write_buffer := wb, write_buffer_pos := pos, last_operation := 1 }, os2) ∧
      Wrote os os2 d ∧ wb.length = B ∧ pos ≤ B ∧
      d ++ wb.take pos = bf.write_buffer.take bf.write_buffer_pos ++ buf.take count := by
  obtain ⟨wb, pos, os2, d, hl, hW, hwb, hposB, hd⟩ :=
    write_loop_full B hB hM buf count hc fuel bf os 0 (Nat.zero_le _) (by omega) hw hlen hpos
  refine ⟨wb, pos, os2, d, ?_, hW, hwb, hposB, by simpa using hd⟩
  unfold buffered_write
  simp only [hlast, if_false, hpre, ne_eq, not_true_eq_false, hl]
  simp

/-- The client `write_all` outside pre-append mode, when every `write`
completes in full. -/
theorem write_all_full (B : Nat) (hB : 0 < B) (hM : B < SIZE_MODULUS) (fuel : Nat) :
    ∀ (ws : List (List Byte)) (bf : buffered_file_t) (os : OS),
      (∀ w ∈ ws, w.length ≤ fuel) → all_full os.write_script →
      bf.write_buffer.length = B → bf.write_buffer_pos ≤ B →
      bf.preappend = 0 → bf.last_operation ≠ 0 →
      ∃ bf2 os2 d,
        write_all B fuel bf os ws = some (bf2, os2) ∧ Wrote os os2 d ∧
        bf2.write_buffer.length = B ∧ bf2.write_buffer_pos ≤ B ∧
        d ++ bf2.write_buffer.take bf2.write_buffer_pos
          = bf.write_buffer.take bf.write_buffer_pos ++ ws.flatten := by
  intro ws
  induction ws with
  | nil =>
    intro bf os _ hw hlen hpos _ _
    exact ⟨bf, os, [], rfl, wrote_refl hw, hlen, hpos, by simp⟩
  | cons w ws ih =>
    intro bf os hfuel hw hlen hpos hpre hlast
    obtain ⟨wb, pos, os1, d1, h1, hW1, hwb, hposB, hd1⟩ :=
      buffered_write_plain_full B hB hM fuel bf os w w.length (le_refl _)
        (hfuel w (List.mem_cons_self _ _)) hw hlen hpos hpre hlast
    obtain ⟨bf2, os2, d2, h2, hW2, hlen2, hpos2, hd2⟩ :=
      ih { bf with write_buffer := wb, write_buffer_pos := pos, last_operation := 1 } os1
        (fun x hx => hfuel x (List.mem_cons_of_mem _ hx)) hW1.full hwb hposB hpre (by simp)
    refine ⟨bf2, os2, d1 ++ d2, ?_, wrote_trans hW1 hW2, hlen2, hpos2, ?_⟩
    · simp only [write_all, h1]
      exact h2
    · simp only [] at hd2
      rw [List.append_assoc, hd2, ← List.append_assoc, hd1]
      simp

/-! ## Closing -/

/-- When the write of the pending bytes completes in full, `buffered_close`
leaves the pending bytes in the file, whatever `close` answers. -/
theorem buffered_close_full (bf : buffered_file_t) {os : OS} (h : all_full os.write_script)
    (hp : bf.write_buffer_pos ≤ bf.write_buffer.length) :
    (buffered_close bf os).2.content
        = write_at os.content os.offset (bf.write_buffer.take bf.write_buffer_pos) ∧
    (buffered_close bf os).2.fd_open = false := by
  obtain ⟨os2, hf, hW⟩ := buffered_flush_full bf h hp
  unfold buffered_close
  rw [hf]
  simp [hW.content]

theorem os_malloc_ok {os : OS} (h : no_error os.alloc_script) (b : Block) :
    (os_malloc os b).1 = true ∧ no_error (os_malloc os b).2.alloc_script := by
  refine ⟨?_, by rw [os_malloc_alloc_script]; exact no_error_tail h⟩
  have hn := no_error_next h
  unfold os_malloc
  split
  · rename_i he; exact absurd he hn
  · rfl

theorem os_open_fd {os : OS} (h : no_error os.open_script) (flags : Int) :
    ¬ (os_open os flags).1 = -1 := by
  have hn := no_error_next h
  unfold os_open
  split
  · rename_i he; exact absurd he hn
  · simp

/-- When no allocation fails and `open` does not fail, `buffered_open` returns
an instance. -/
theorem buffered_open_ok (B : Nat) (O_PREAPPEND : Int) (garbage : Byte) (flags : Int)
    (os : OS) (ha : no_error os.alloc_script) (ho : no_error os.open_script) :
    ∃ bf os1, buffered_open B O_PREAPPEND garbage flags os = (some bf, os1) := by
  obtain ⟨a1, n1⟩ := os_malloc_ok ha Block.bf
  obtain ⟨a2, n2⟩ := os_malloc_ok n1 Block.read_buffer
  obtain ⟨a3, n3⟩ := os_malloc_ok n2 Block.write_buffer
  have ho3 : no_error (os_malloc (os_malloc (os_malloc os Block.bf).2
      Block.read_buffer).2 Block.write_buffer).2.open_script := by
    have e : ∀ (o : OS) (b : Block), (os_malloc o b).2.open_script = o.open_script := by
      intro o b; unfold os_malloc; split <;> rfl
    rw [e, e, e]; exact ho
  unfold buffered_open
  simp only [a1, a2, a3, Bool.not_true, Bool.false_eq_true, if_false]
  split_ifs with h4 h5 h6
  all_goals first
    | exact ⟨_, _, rfl⟩
    | exact absurd h5 (os_open_fd ho3 _)
    | exact absurd h6 (os_open_fd ho3 _)

/-- On an operating system before any call, with flags whose pre-append bit is
clear, `buffered_open` returns the fresh instance. -/
theorem buffered_open_boot (B : Nat) (O_PREAPPEND : Int) (garbage : Byte) (flags : Int)
    (content : List Byte) (hflag : Int.land flags O_PREAPPEND = 0) :
    (buffered_open B O_PREAPPEND garbage flags (boot content)).1
      = some (fresh_instance B garbage flags 0) := by
  simp [buffered_open, os_malloc, os_open, boot, next_outcome, hflag, fresh_instance]

/-! ## The write round trip -/

/-- C1 (write round trip outside pre-append mode): for a buffer size `B` with
`0 < B < 2^64`, flags with the pre-append bit clear and an empty file, if no
allocation fails, `open` does not fail and every underlying `write` completes
in full, then `buffered_open` returns an instance, calling `buffered_write` on
each of the byte strings `ws` in order (any lengths, with enough fuel for each
call) returns, and `buffered_close` afterwards leaves the file content equal to
the concatenation of `ws`. -/
theorem nonpreappend_write_round_trip (B : Nat) (hB : 0 < B) (hM : B < SIZE_MODULUS)
    (O_PREAPPEND : Int) (garbage : Byte) (flags : Int) (os : OS)
    (hflag : Int.land flags O_PREAPPEND = 0) (hempty : os.content = [])
    (ha : no_error os.alloc_script) (ho : no_error os.open_script)
    (hw : all_full os.write_script)
    (ws : List (List Byte)) (fuel : Nat) (hfuel : ∀ w ∈ ws, w.length ≤ fuel) :
    ∃ bf os1 bf2 os2,
      buffered_open B O_PREAPPEND garbage flags os = (some bf, os1) ∧
      write_all B fuel bf os1 ws = some (bf2, os2) ∧
      (buffered_close bf2 os2).2.content = ws.flatten := by
  obtain ⟨bf, os1, hopen⟩ := buffered_open_ok B O_PREAPPEND garbage flags os ha ho
  obtain ⟨⟨_, hwb, _, _, hwp, hlast, hpre⟩, hcont, hoff, _, hws, _⟩ := buffered_open_some hopen
  rw [hflag] at hpre
  have hw1 : all_full os1.write_script := by rw [hws]; exact hw
  obtain ⟨bf2, os2, d, hall, hW, hlen2, hpos2, hd⟩ :=
    write_all_full B hB hM fuel ws bf os1 hfuel hw1 (by rw [hwb]; simp) (by rw [hwp]; omega)
      (by simpa using hpre) (by rw [hlast]; decide)
  refine ⟨bf, os1, bf2, os2, hopen, hall, ?_⟩
  rw [(buffered_close_full bf2 hW.full (by omega)).1, hW.content, hW.offset, write_at_append,
    hd, hwp, hcont, hempty, hoff, write_at_zero]
  simp

/-- Witness for C1: buffer size 4, the strings `[1,2,3]`, `[]` and `[4,..,9]`. -/
theorem nonpreappend_write_round_trip_witness :
    ∃ bf os1 bf2 os2,
      buffered_open 4 4 0 2 (boot []) = (some bf, os1) ∧
      write_all 4 6 bf os1 [[1, 2, 3], [], [4, 5, 6, 7, 8, 9]] = some (bf2, os2) ∧
      (buffered_close bf2 os2).2.content = [[1, 2, 3], [], [4, 5, 6, 7, 8, 9]].flatten :=
  nonpreappend_write_round_trip 4 (by decide) (by decide) 4 0 2 (boot []) (by decide) rfl
    (fun _ h => nomatch h) (fun _ h => nomatch h) (fun _ h => nomatch h) _ 6 (by decide)

/-! ## Writing in pre-append mode -/

theorem read_only_refl (os : OS) : ReadOnly os os := ⟨rfl, rfl, rfl, rfl, rfl, rfl, rfl, rfl⟩

theorem read_only_trans {os1 os2 os3 : OS} (h12 : ReadOnly os1 os2) (h23 : ReadOnly os2 os3) :
    ReadOnly os1 os3 where
  content := h23.content.trans h12.content
  fd_open := h23.fd_open.trans h12.fd_open
  live := h23.live.trans h12.live
  open_script := h23.open_script.trans h12.open_script
  alloc_script := h23.alloc_script.trans h12.alloc_script
  seek_script := h23.seek_script.trans h12.seek_script
  write_script := h23.write_script.trans h12.write_script
  close_script := h23.close_script.trans h12.close_script

theorem same_read_side_refl (bf : buffered_file_t) : SameButReadSide bf bf := by
  unfold SameButReadSide; cases bf; rfl

theorem same_read_side_trans {bf1 bf2 bf3 : buffered_file_t} (h12 : SameButReadSide bf1 bf2)
    (h23 : SameButReadSide bf2 bf3) : SameButReadSide bf1 bf3 := by
  unfold SameButReadSide at *
  rw [h23, h12]

/-- What one `read` does, whatever its outcome: it changes nothing but the
offset, it stores at most `count` bytes, and it returns their number or `-1`
with no byte stored. -/
theorem os_read_spec (os : OS) (count : Nat) :
    ReadOnly os (os_read os count).2.2 ∧ (os_read os count).2.1.length ≤ count ∧
    (((os_read os count).1 = -1 ∧ (os_read os count).2.1 = []) ∨
      (os_read os count).1 = ((os_read os count).2.1.length : Int)) := by
  unfold os_read
  split
  · exact ⟨⟨rfl, rfl, rfl, rfl, rfl, rfl, rfl, rfl⟩, by simp, Or.inl ⟨rfl, rfl⟩⟩
  · refine ⟨⟨rfl, rfl, rfl, rfl, rfl, rfl, rfl, rfl⟩, ?_, Or.inr rfl⟩
    simp only [List.length_take]
    omega
  · refine ⟨⟨rfl, rfl, rfl, rfl, rfl, rfl, rfl, rfl⟩, ?_, Or.inr rfl⟩
    simp only [List.length_take]
    omega

theorem memcpy_front (dst data : List Byte) :
    memcpy dst 0 data 0 data.length = data ++ dst.drop data.length := by
  simp [memcpy]

/-- The refill step, written with projections. -/
theorem refill_eq (B : Nat) (bf : buffered_file_t) (os : OS) :
    refill B bf os =
      if bf.read_buffer_pos ≥ bf.read_buffer_size then
        if (os_read os B).1 ≤ 0 then
          (true, { bf with
            read_buffer := memcpy bf.read_buffer 0 (os_read os B).2.1 0 (os_read os B).2.1.length },
            (os_read os B).2.2)
        else
          (false, { bf with
            read_buffer := memcpy bf.read_buffer 0 (os_read os B).2.1 0 (os_read os B).2.1.length
            read_buffer_size := (os_read os B).1.toNat
            read_buffer_pos := 0 }, (os_read os B).2.2)
      else (false, bf, os) := by
  unfold refill
  rfl

/-- What the refill step does, whatever the outcome of the `read`. -/
theorem refill_spec (B : Nat) (bf : buffered_file_t) (os : OS)
    (hlen : bf.read_buffer.length = B) (hsize : bf.read_buffer_size ≤ B) :
    ReadOnly os (refill B bf os).2.2 ∧ SameButReadSide bf (refill B bf os).2.1 ∧
    (refill B bf os).2.1.read_buffer.length = B ∧
    (refill B bf os).2.1.read_buffer_size ≤ B ∧
    ((refill B bf os).1 = false →
      (refill B bf os).2.1.read_buffer_pos < (refill B bf os).2.1.read_buffer_size) := by
  obtain ⟨hro, hdl, hv⟩ := os_read_spec os B
  have hml : (memcpy bf.read_buffer 0 (os_read os B).2.1 0 (os_read os B).2.1.length).length
      = B := by
    rw [memcpy_front, List.length_append, List.length_drop]; omega
  rw [refill_eq]
  split_ifs with h1 h2
  · exact ⟨hro, by unfold SameButReadSide; rfl, hml, hsize, by simp⟩
  · refine ⟨hro, by unfold SameButReadSide; rfl, hml, ?_, fun _ => ?_⟩
    · simp only []
      omega
    · simp only []
      omega
  · exact ⟨read_only_refl os, same_read_side_refl bf, hlen, hsize, fun _ => by
      simp only []
      omega⟩

theorem read_loop_done (B count fuel : Nat) (bf : buffered_file_t) (os : OS) (buf : List Byte)
    (br : Nat) (h : ¬ br < count) :
    read_loop B count fuel bf os buf br = some (br, bf, os, buf) := by
  rw [read_loop.eq_def]
  simp [h]

/-- One iteration of the loop of `buffered_read`, written with projections. -/
theorem read_loop_succ (B count fuel : Nat) (bf : buffered_file_t) (os : OS) (buf : List Byte)
    (br : Nat) (h : br < count) :
    read_loop B count (fuel + 1) bf os buf br =
      if (refill B bf os).1 then some (br, (refill B bf os).2.1, (refill B bf os).2.2, buf)
      else
        read_loop B count fuel
          { (refill B bf os).2.1 with
            read_buffer_pos := (refill B bf os).2.1.read_buffer_pos +
              (if count - br < size_sub (refill B bf os).2.1.read_buffer_size
                    (refill B bf os).2.1.read_buffer_pos
                then count - br
                else size_sub (refill B bf os).2.1.read_buffer_size
                    (refill B bf os).2.1.read_buffer_pos) }
          (refill B bf os).2.2
          (memcpy buf br (refill B bf os).2.1.read_buffer (refill B bf os).2.1.read_buffer_pos
            (if count - br < size_sub (refill B bf os).2.1.read_buffer_size
                  (refill B bf os).2.1.read_buffer_pos
              then count - br
              else size_sub (refill B bf os).2.1.read_buffer_size
                  (refill B bf os).2.1.read_buffer_pos))
          (br + (if count - br < size_sub (refill B bf os).2.1.read_buffer_size
                  (refill B bf os).2.1.read_buffer_pos
              then count - br
              else size_sub (refill B bf os).2.1.read_buffer_size
                  (refill B bf os).2.1.read_buffer_pos)) := by
  rw [read_loop]
  simp only [h, if_true]

theorem memcpy_take_before (dst : List Byte) (dpos : Nat) (src : List Byte) (spos n : Nat)
    (hd : dpos ≤ dst.length) :
    (memcpy dst dpos src spos n).take dpos = dst.take dpos := by
  unfold memcpy
  rw [List.append_assoc]
  apply List.take_left'
  rw [List.length_take]; omega

/-- The loop of `buffered_read` ends within `count - bytes_read` iterations,
whatever the `read` calls answer; it writes the caller's buffer only between
the old and the new `bytes_read`. -/
theorem read_loop_total (B : Nat) (hM : B < SIZE_MODULUS) (count : Nat) :
    ∀ (fuel : Nat) (bf : buffered_file_t) (os : OS) (buf : List Byte) (br : Nat),
      br ≤ count → count ≤ br + fuel → count ≤ buf.length →
      bf.read_buffer.length = B → bf.read_buffer_size ≤ B →
      ∃ r bf2 os2 buf2,
        read_loop B count fuel bf os buf br = some (r, bf2, os2, buf2) ∧
        br ≤ r ∧ r ≤ count ∧ buf2.length = buf.length ∧
        buf2.take br = buf.take br ∧ buf2.drop r = buf.drop r ∧
        ReadOnly os os2 ∧ SameButReadSide bf bf2 ∧
        bf2.read_buffer.length = B ∧ bf2.read_buffer_size ≤ B := by
  intro fuel
  induction fuel with
  | zero =>
    intro bf os buf br hbr hfuel _ hlen hsize
    exact ⟨br, bf, os, buf, read_loop_done _ _ _ _ _ _ _ (by omega), le_refl _, hbr, rfl, rfl,
      rfl, read_only_refl os, same_read_side_refl bf, hlen, hsize⟩
  | succ n ih =>
    intro bf os buf br hbr hfuel hbuf hlen hsize
    by_cases hlt : br < count
    · obtain ⟨hro, hsame, hlen1, hsize1, hpos1⟩ := refill_spec B bf os hlen hsize
      rw [read_loop_succ _ _ _ _ _ _ _ hlt]
      cases hstop : (refill B bf os).1 with
      | true =>
        exact ⟨br, _, _, buf, by simp, le_refl _, hbr, rfl, rfl, rfl, hro, hsame, hlen1, hsize1⟩
      | false =>
        have hp := hpos1 hstop
        rw [size_sub_of_le (by omega) (by omega)]
        obtain ⟨tr, htr_def, htr0, htrc, htrb⟩ : ∃ tr,
            tr = (if count - br < (refill B bf os).2.1.read_buffer_size
                    - (refill B bf os).2.1.read_buffer_pos
                  then count - br
                  else (refill B bf os).2.1.read_buffer_size
                    - (refill B bf os).2.1.read_buffer_pos) ∧
            0 < tr ∧ br + tr ≤ count ∧
            (refill B bf os).2.1.read_buffer_pos + tr ≤ (refill B bf os).2.1.read_buffer_size := by
          refine ⟨_, rfl, ?_⟩
          split <;> omega
        rw [← htr_def]
        obtain ⟨r, bf2, os2, buf2, hrun, hr1, hr2, hl2, ht2, hd2, hro2, hsame2, hlen2, hsize2⟩ :=
          ih { (refill B bf os).2.1 with
                read_buffer_pos := (refill B bf os).2.1.read_buffer_pos + tr }
            (refill B bf os).2.2
            (memcpy buf br (refill B bf os).2.1.read_buffer (refill B bf os).2.1.read_buffer_pos tr)
            (br + tr) htrc (by omega)
            (by rw [memcpy_length _ _ _ _ _ (by omega) (by omega)]; exact hbuf)
            hlen1 hsize1
        have hml := memcpy_length buf br (refill B bf os).2.1.read_buffer
          (refill B bf os).2.1.read_buffer_pos tr (by omega) (by omega)
        refine ⟨r, bf2, os2, buf2, by simpa using hrun, by omega, hr2, by rw [hl2, hml], ?_, ?_,
          read_only_trans hro hro2,
          same_read_side_trans hsame
            (same_read_side_trans (by unfold SameButReadSide; rfl) hsame2),
          hlen2, hsize2⟩
        · have h1 : buf2.take br = (buf2.take (br + tr)).take br := by
            rw [List.take_take]; congr 1; omega
          rw [h1, ht2, List.take_take, Nat.min_eq_left (by omega),
            memcpy_take_before _ _ _ _ _ (by omega)]
        · have h1 : buf2.drop r = (buf2.drop r) := rfl
          rw [hd2]
          have h2 : r = (br + tr) + (r - (br + tr)) := by omega
          rw [h2, ← List.drop_drop, memcpy_drop _ _ _ _ _ (by omega) (by omega), List.drop_drop]
    · exact ⟨br, bf, os, buf, read_loop_done _ _ _ _ _ _ _ hlt, le_refl _, hbr, rfl, rfl,
        rfl, read_only_refl os, same_read_side_refl bf, hlen, hsize⟩

theorem buffered_flush_empty (bf : buffered_file_t) (os : OS) (h : bf.write_buffer_pos = 0) :
    buffered_flush bf os = (0, bf, os) := by
  unfold buffered_flush
  rw [if_neg (by omega)]

theorem take_set_same (l : List Byte) (n : Nat) (a : Byte) : (l.set n a).take n = l.take n := by
  rw [List.set_take]
  apply List.set_eq_of_length_le
  rw [List.length_take]; omega

/-- The body of `buffered_flush`, written with projections. -/
theorem buffered_flush_eq (bf : buffered_file_t) (os : OS) :
    buffered_flush bf os =
      if bf.write_buffer_pos > 0 then
        if (os_write os bf.write_buffer bf.write_buffer_pos).1 ≠ (bf.write_buffer_pos : Int) then
          (-1, bf, (os_write os bf.write_buffer bf.write_buffer_pos).2)
        else
          (0, { bf with write_buffer_pos := 0 },
            (os_write os bf.write_buffer bf.write_buffer_pos).2)
      else (0, bf, os) := by
  unfold buffered_flush
  rfl

/-- Whatever the `write` answers, `buffered_flush` changes nothing of the
instance but the position in the write buffer. -/
theorem buffered_flush_bf (bf : buffered_file_t) (os : OS) :
    (buffered_flush bf os).2.1
      = { bf with write_buffer_pos := (buffered_flush bf os).2.1.write_buffer_pos } := by
  rw [buffered_flush_eq]
  split_ifs <;> (cases bf; rfl)

/-- C5 (short-read terminator): for an instance whose read buffer has `B`
bytes (`B < 2^64`) of which at most `B` are marked valid, a caller's buffer of
at least `count` bytes and every answer of the operating system, with fuel
`count` or more: when the flush at the start fails, `buffered_read` returns `-1`
and the caller's buffer is untouched; otherwise the loop ends having produced
some `r ≤ count` bytes, `buffered_read` returns `r`, the caller's buffer keeps
its length and holds the produced bytes in `[0, r)`; when `r < count` the byte
at index `r` is 0 and the bytes past index `r` are untouched, and when
`r = count` the bytes at index `count` and beyond are untouched. -/
theorem short_read_terminator (B : Nat) (hM : B < SIZE_MODULUS) (fuel : Nat)
    (bf : buffered_file_t) (os : OS) (buf : List Byte) (count : Nat)
    (hfuel : count ≤ fuel) (hbuf : count ≤ buf.length)
    (hlen : bf.read_buffer.length = B) (hsize : bf.read_buffer_size ≤ B) :
    if (buffered_flush bf os).1 = -1 then
      buffered_read B fuel bf os buf count
        = some (-1, (buffered_flush bf os).2.1, (buffered_flush bf os).2.2, buf)
    else
      ∃ r bf1 os1 buf1 buf2,
        read_loop B count fuel (buffered_flush bf os).2.1 (buffered_flush bf os).2.2 buf 0
          = some (r, bf1, os1, buf1) ∧
        buffered_read B fuel bf os buf count
          = some ((r : Int), { bf1 with last_operation := 0 }, os1, buf2) ∧
        r ≤ count ∧ buf2.length = buf.length ∧ buf2.take r = buf1.take r ∧
        (r < count → buf2[r]? = some 0 ∧ buf2.drop (r + 1) = buf.drop (r + 1)) ∧
        (r = count → buf2.drop count = buf.drop count) := by
  have hunf : buffered_read B fuel bf os buf count =
      if (buffered_flush bf os).1 = -1 then
        some (-1, (buffered_flush bf os).2.1, (buffered_flush bf os).2.2, buf)
      else
        match read_loop B count fuel (buffered_flush bf os).2.1 (buffered_flush bf os).2.2 buf 0
        with
        | none => none
        | some (bytes_read, bf1, os1, buf1) =>
          if bytes_read < count then
            some ((bytes_read : Int), { bf1 with last_operation := 0 }, os1, buf1.set bytes_read 0)
          else some ((bytes_read : Int), { bf1 with last_operation := 0 }, os1, buf1) := by
    unfold buffered_read
    rfl
  by_cases hfl : (buffered_flush bf os).1 = -1
  · rw [if_pos hfl, hunf, if_pos hfl]
  · rw [if_neg hfl]
    have hlen0 : (buffered_flush bf os).2.1.read_buffer.length = B := by
      rw [buffered_flush_bf]; exact hlen
    have hsize0 : (buffered_flush bf os).2.1.read_buffer_size ≤ B := by
      rw [buffered_flush_bf]; exact hsize
    obtain ⟨r, bf1, os1, buf1, hrun, _, hr, hl1, _, hd1, _⟩ :=
      read_loop_total B hM count fuel (buffered_flush bf os).2.1 (buffered_flush bf os).2.2 buf 0
        (Nat.zero_le _) (by omega) hbuf hlen0 hsize0
    by_cases hshort : r < count
    · refine ⟨r, bf1, os1, buf1, buf1.set r 0, hrun, ?_, hr, ?_, take_set_same _ _ _,
        fun _ => ⟨?_, ?_⟩, fun h => by omega⟩
      · rw [hunf, if_neg hfl, hrun]
        simp only [hshort, if_true]
      · rw [List.length_set, hl1]
      · rw [List.getElem?_set_self (by omega)]
      · rw [List.drop_set_of_lt _ _ (by omega)]
        have h1 : ∀ l : List Byte, l.drop (r + 1) = (l.drop r).drop 1 := by
          intro l; rw [List.drop_drop]
        rw [h1 buf1, hd1, ← h1]
    · refine ⟨r, bf1, os1, buf1, buf1, hrun, ?_, hr, hl1, rfl, fun h => by omega, fun h => ?_⟩
      · rw [hunf, if_neg hfl, hrun]
        simp only [hshort, if_false]
      · rw [← h]; exact hd1

/-- Witness for C5: buffer size 4, a fresh instance on the file `[1,2,3]`, a
read of 5 bytes into a buffer of 6. -/
theorem short_read_terminator_witness :
    if (buffered_flush (fresh_instance 4 0 0 0) (boot [1, 2, 3])).1 = -1 then
      buffered_read 4 5 (fresh_instance 4 0 0 0) (boot [1, 2, 3]) [9, 9, 9, 9, 9, 9] 5
        = some (-1, (buffered_flush (fresh_instance 4 0 0 0) (boot [1, 2, 3])).2.1,
            (buffered_flush (fresh_instance 4 0 0 0) (boot [1, 2, 3])).2.2, [9, 9, 9, 9, 9, 9])
    else
      ∃ r bf1 os1 buf1 buf2,
        read_loop 4 5 5 (buffered_flush (fresh_instance 4 0 0 0) (boot [1, 2, 3])).2.1
            (buffered_flush (fresh_instance 4 0 0 0) (boot [1, 2, 3])).2.2 [9, 9, 9, 9, 9, 9] 0
          = some (r, bf1, os1, buf1) ∧
        buffered_read 4 5 (fresh_instance 4 0 0 0) (boot [1, 2, 3]) [9, 9, 9, 9, 9, 9] 5
          = some ((r : Int), { bf1 with last_operation := 0 }, os1, buf2) ∧
        r ≤ 5 ∧ buf2.length = [9, 9, 9, 9, 9, 9].length ∧ buf2.take r = buf1.take r ∧
        (r < 5 → buf2[r]? = some 0 ∧ buf2.drop (r + 1) = [9, 9, 9, 9, 9, 9].drop (r + 1)) ∧
        (r = 5 → buf2.drop 5 = [9, 9, 9, 9, 9, 9].drop 5) :=
  short_read_terminator 4 (by decide) 5 (fresh_instance 4 0 0 0) (boot [1, 2, 3])
    [9, 9, 9, 9, 9, 9] 5 (by decide) (by decide) (by decide) (by decide)

/-! ## A write after a read -/

/-- C7, the code at the failing input: buffer size 4, an instance opened on an
empty file, one byte written (it stays in the write buffer), and the `write`
issued by the flush inside `buffered_close` fails.  The write returned 1; after
`buffered_close` the three heap blocks are released but the descriptor is still
open and the trace shows no `close` call. -/
theorem close_leaks_descriptor_when_flush_fails :
    (write_once_and_close 4 4 0 2 1 (boot_scripted [] [] [] [Outcome.error] []) [7] 1).map
        (fun r => (r.1, r.2.fd_open, r.2.live, r.2.trace))
      = some (1, true, [],
          [Call.malloc Block.bf, Call.malloc Block.read_buffer, Call.malloc Block.write_buffer,
            Call.sys_open 2, Call.write [7], Call.free Block.read_buffer,
            Call.free Block.write_buffer, Call.free Block.bf]) := by
  have hbit : Int.land 2 4 = 0 := by decide
  simp [write_once_and_close, buffered_open, buffered_close, free_before_exit, os_open,
    os_close, hbit, buffered_write, write_loop, buffered_flush, size_sub, SIZE_MODULUS,
    memcpy, boot, boot_scripted, os_malloc, os_write, os_free, next_outcome]

/-- Whenever the flush inside `buffered_close` fails, `buffered_close` returns
`-1` and leaves the descriptor as it was: it makes no `close` call. -/
theorem buffered_close_after_failed_flush (bf : buffered_file_t) (os : OS)
    (h : (buffered_flush bf os).1 = -1) :
    (buffered_close bf os).1 = -1 ∧
    (buffered_close bf os).2.fd_open = (buffered_flush bf os).2.2.fd_open ∧
    (buffered_close bf os).2.trace
      = (buffered_flush bf os).2.2.trace
        ++ [Call.free Block.read_buffer, Call.free Block.write_buffer, Call.free Block.bf] := by
  have hunf : buffered_close bf os =
      if (buffered_flush bf os).1 = -1 then (-1, free_before_exit (buffered_flush bf os).2.2)
      else ((os_close (buffered_flush bf os).2.2).1,
        free_before_exit (os_close (buffered_flush bf os).2.2).2) := by
    unfold buffered_close
    rfl
  rw [hunf, if_pos h]
  refine ⟨rfl, rfl, ?_⟩
  simp [free_before_exit, os_free]

/-! ## Flushing -/

/-- C8, as stated, fails: buffer size 4, two pending bytes `[7, 8]`, an empty
file, and an operating system whose `write` calls transfer one byte each.  One
`buffered_flush` returns `-1` and leaves the file as `[7]` at offset 1; a second
call right after it writes again and leaves the file as `[7, 7]` at offset 2. -/
theorem flush_twice_counterexample :
    ((buffered_flush { fresh_instance 4 0 2 0 with write_buffer := [7, 8, 0, 0], write_buffer_pos := 2 }
        (boot_scripted [] [] [] [Outcome.short 1, Outcome.short 1] [])).1,
      (buffered_flush { fresh_instance 4 0 2 0 with write_buffer := [7, 8, 0, 0], write_buffer_pos := 2 }
        (boot_scripted [] [] [] [Outcome.short 1, Outcome.short 1] [])).2.2.content,
      (buffered_flush { fresh_instance 4 0 2 0 with write_buffer := [7, 8, 0, 0], write_buffer_pos := 2 }
        (boot_scripted [] [] [] [Outcome.short 1, Outcome.short 1] [])).2.2.offset)
      = (-1, [7], 1) ∧
    ((flush_twice { fresh_instance 4 0 2 0 with write_buffer := [7, 8, 0, 0], write_buffer_pos := 2 }
        (boot_scripted [] [] [] [Outcome.short 1, Outcome.short 1] [])).1,
      (flush_twice { fresh_instance 4 0 2 0 with write_buffer := [7, 8, 0, 0], write_buffer_pos := 2 }
        (boot_scripted [] [] [] [Outcome.short 1, Outcome.short 1] [])).2.2.content,
      (flush_twice { fresh_instance 4 0 2 0 with write_buffer := [7, 8, 0, 0], write_buffer_pos := 2 }
        (boot_scripted [] [] [] [Outcome.short 1, Outcome.short 1] [])).2.2.offset)
      = (-1, [7, 7], 2) ∧
    (flush_twice { fresh_instance 4 0 2 0 with write_buffer := [7, 8, 0, 0], write_buffer_pos := 2 }
        (boot_scripted [] [] [] [Outcome.short 1, Outcome.short 1] [])).2.2.content
      ≠ (buffered_flush
          { fresh_instance 4 0 2 0 with write_buffer := [7, 8, 0, 0], write_buffer_pos := 2 }
          (boot_scripted [] [] [] [Outcome.short 1, Outcome.short 1] [])).2.2.content := by
  decide

/-- C8, amended (flush is idempotent after a success): for every instance and
every state of the operating system, when `buffered_flush` returns 0 a second
call right after it returns 0 too and changes neither the instance nor the
operating system (it issues no call), so two calls leave what one call leaves;
and when `write_buffer_pos` is 0, `buffered_flush` returns 0, issues no call and
changes nothing. -/
theorem flush_idempotent_after_success (bf : buffered_file_t) (os : OS) :
    ((buffered_flush bf os).1 = 0 →
      flush_twice bf os = buffered_flush bf os ∧
      buffered_flush (buffered_flush bf os).2.1 (buffered_flush bf os).2.2
        = (0, (buffered_flush bf os).2.1, (buffered_flush bf os).2.2)) ∧
    (bf.write_buffer_pos = 0 → buffered_flush bf os = (0, bf, os)) := by
  have hsecond : (buffered_flush bf os).1 = 0 →
      buffered_flush (buffered_flush bf os).2.1 (buffered_flush bf os).2.2
        = (0, (buffered_flush bf os).2.1, (buffered_flush bf os).2.2) := by
    intro h0
    apply buffered_flush_empty
    rw [buffered_flush_eq] at h0 ⊢
    split_ifs at h0 ⊢ with h1 h2
    · simp at h0
    · rfl
    · show bf.write_buffer_pos = 0
      omega
  refine ⟨fun h0 => ⟨?_, hsecond h0⟩, buffered_flush_empty bf os⟩
  have htw : flush_twice bf os
      = buffered_flush (buffered_flush bf os).2.1 (buffered_flush bf os).2.2 := rfl
  rw [htw, hsecond h0]
  exact Prod.ext h0.symm rfl

/-- Witness for the amended C8: buffer size 4, two pending bytes, every `write`
completes in full. -/
theorem flush_idempotent_after_success_witness :
    (flush_twice { fresh_instance 4 0 2 0 with write_buffer := [7, 8, 0, 0], write_buffer_pos := 2 }
        (boot [1])
      = buffered_flush
          { fresh_instance 4 0 2 0 with write_buffer := [7, 8, 0, 0], write_buffer_pos := 2 }
          (boot [1]) ∧
     buffered_flush
        (buffered_flush
          { fresh_instance 4 0 2 0 with write_buffer := [7, 8, 0, 0], write_buffer_pos := 2 }
          (boot [1])).2.1
        (buffered_flush
          { fresh_instance 4 0 2 0 with write_buffer := [7, 8, 0, 0], write_buffer_pos := 2 }
          (boot [1])).2.2
      = (0,
        (buffered_flush
          { fresh_instance 4 0 2 0 with write_buffer := [7, 8, 0, 0], write_buffer_pos := 2 }
          (boot [1])).2.1,
        (buffered_flush
          { fresh_instance 4 0 2 0 with write_buffer := [7, 8, 0, 0], write_buffer_pos := 2 }
          (boot [1])).2.2)) ∧
    buffered_flush (fresh_instance 4 0 2 0) (boot [1]) = (0, fresh_instance 4 0 2 0, boot [1]) :=
  ⟨(flush_idempotent_after_success
      { fresh_instance 4 0 2 0 with write_buffer := [7, 8, 0, 0], write_buffer_pos := 2 }
      (boot [1])).1 (by decide),
   (flush_idempotent_after_success (fresh_instance 4 0 2 0) (boot [1])).2 (by decide)⟩

/-- What one `write` reports, by outcome: `-1` on an error, and after a short
write of at most `n` bytes no more than `n`. -/
theorem os_write_reports (os : OS) (src : List Byte) (count : Nat) :
    (next_outcome os.write_script = Outcome.error → (os_write os src count).1 = -1) ∧
    (∀ n, next_outcome os.write_script = Outcome.short n →
      (os_write os src count).1 ≤ (n : Int)) ∧
    (os_write os src count).2.trace = os.trace ++ [Call.write (src.take count)] := by
  unfold os_write
  refine ⟨fun h => by rw [h], fun n h => ?_, by split <;> rfl⟩
  rw [h]
  simp only [List.length_take]
  omega

/-- C9 (flush result and failure atomicity): for every instance with
`write_buffer_pos = p > 0` (and a write buffer of at least `p` bytes) and every
state of the operating system, `buffered_flush` issues exactly one call, a
`write` of the `p` pending bytes; it returns 0 and sets `write_buffer_pos` to 0
exactly when that `write` reports `p` bytes; otherwise (an error, or a short
write of fewer than `p` bytes) it returns `-1` and leaves the instance, so
`write_buffer_pos` and the write buffer, unchanged. -/
theorem flush_result_and_atomicity (bf : buffered_file_t) (os : OS)
    (hp : 0 < bf.write_buffer_pos) (hlen : bf.write_buffer_pos ≤ bf.write_buffer.length) :
    (buffered_flush bf os).2.2 = (os_write os bf.write_buffer bf.write_buffer_pos).2 ∧
    (buffered_flush bf os).2.2.trace
      = os.trace ++ [Call.write (bf.write_buffer.take bf.write_buffer_pos)] ∧
    (bf.write_buffer.take bf.write_buffer_pos).length = bf.write_buffer_pos ∧
    (((buffered_flush bf os).1 = 0 ∧ (buffered_flush bf os).2.1.write_buffer_pos = 0) ↔
      (os_write os bf.write_buffer bf.write_buffer_pos).1 = (bf.write_buffer_pos : Int)) ∧
    ((os_write os bf.write_buffer bf.write_buffer_pos).1 = (bf.write_buffer_pos : Int) →
      (buffered_flush bf os).2.1 = { bf with write_buffer_pos := 0 }) ∧
    ((os_write os bf.write_buffer bf.write_buffer_pos).1 ≠ (bf.write_buffer_pos : Int) →
      (buffered_flush bf os).1 = -1 ∧ (buffered_flush bf os).2.1 = bf) ∧
    ((next_outcome os.write_script = Outcome.error ∨
        ∃ n, n < bf.write_buffer_pos ∧ next_outcome os.write_script = Outcome.short n) →
      (buffered_flush bf os).1 = -1 ∧ (buffered_flush bf os).2.1 = bf) := by
  obtain ⟨herr, hshort, htrace⟩ := os_write_reports os bf.write_buffer bf.write_buffer_pos
  have hfail : (os_write os bf.write_buffer bf.write_buffer_pos).1 ≠ (bf.write_buffer_pos : Int) →
      (buffered_flush bf os).1 = -1 ∧ (buffered_flush bf os).2.1 = bf := by
    intro h
    rw [buffered_flush_eq, if_pos hp, if_pos h]
    exact ⟨rfl, rfl⟩
  have hos : (buffered_flush bf os).2.2 = (os_write os bf.write_buffer bf.write_buffer_pos).2 := by
    rw [buffered_flush_eq, if_pos hp]
    split_ifs <;> rfl
  refine ⟨hos, by rw [hos, htrace], by rw [List.length_take]; omega, ⟨fun h => ?_, fun h => ?_⟩,
    fun h => ?_, hfail, fun h => ?_⟩
  · by_contra hne
    have := (hfail hne).1
    omega
  · rw [buffered_flush_eq, if_pos hp, if_neg (by simpa using h)]
    exact ⟨rfl, rfl⟩
  · rw [buffered_flush_eq, if_pos hp, if_neg (by simpa using h)]
  · apply hfail
    rcases h with h | ⟨n, hn, h⟩
    · rw [herr h]; omega
    · have := hshort n h
      omega

/-- Witness for C9: buffer size 4, two pending bytes, a `write` that transfers
one byte only. -/
theorem flush_result_and_atomicity_witness :
    (buffered_flush
        { fresh_instance 4 0 2 0 with write_buffer := [7, 8, 0, 0], write_buffer_pos := 2 }
        (boot_scripted [] [] [] [Outcome.short 1] [])).1 = -1 ∧
    (buffered_flush
        { fresh_instance 4 0 2 0 with write_buffer := [7, 8, 0, 0], write_buffer_pos := 2 }
        (boot_scripted [] [] [] [Outcome.short 1] [])).2.1
      = { fresh_instance 4 0 2 0 with write_buffer := [7, 8, 0, 0], write_buffer_pos := 2 } :=
  (flush_result_and_atomicity
    { fresh_instance 4 0 2 0 with write_buffer := [7, 8, 0, 0], write_buffer_pos := 2 }
    (boot_scripted [] [] [] [Outcome.short 1] []) (by decide) (by decide)).2.2.2.2.2.2
    (Or.inr ⟨1, by decide, rfl⟩)

/-! ## Small writes stay in the buffer -/

theorem writes_issued_lseek_end (os : OS) :
    writes_issued (os_lseek_end os).2 = writes_issued os ∧
    (os_lseek_end os).2.content = os.content := by
  unfold os_lseek_end
  split <;> simp [writes_issued]

theorem os_lseek_end_fails (os : OS) :
    (os_lseek_end os).1 = -1 ↔ next_outcome os.seek_script = Outcome.error := by
  unfold os_lseek_end
  split
  · rename_i he; simp [he]
  · rename_i hne
    constructor
    · intro h; simp only [] at h; omega
    · intro h
      exact absurd h (by intro hc; exact hne hc)

/-- C10, as stated, fails: buffer size 4, an instance outside pre-append mode
with an empty write buffer whose last operation was a read, and an operating
system whose next `lseek` fails.  `buffered_write` of the one byte `[7]` returns
`-1` and the write buffer does not hold the byte. -/
theorem small_write_counterexample :
    (buffered_write 4 1 { fresh_instance 4 0 2 0 with last_operation := 0 }
        (boot_scripted [] [Outcome.error] [] [] []) [7] 1).map
        (fun r => (r.1, r.2.1.write_buffer.take 1, r.2.1.write_buffer_pos))
      = some (-1, [0], 0) ∧
    (buffered_write 4 1 { fresh_instance 4 0 2 0 with last_operation := 0 }
        (boot_scripted [] [Outcome.error] [] [] []) [7] 1).map
        (fun r => r.2.1.write_buffer.take 1)
      ≠ some [7] := by
  decide

/-- C10, amended (buffering is observable): for a buffer size `B < 2^64`, an
instance outside pre-append mode whose write buffer (of `B` bytes) is empty, and
`count < B` bytes, `buffered_write` returns, issues no `write` call and leaves
the file content unchanged, whatever the operating system answers.  It returns
`-1` exactly when the last operation was a read and the seek to the end fails,
and then nothing is buffered.  Otherwise it returns `count`, the bytes are held
in `write_buffer[0..count)` with `write_buffer_pos = count`, and the next
`buffered_flush` or `buffered_close` whose `write` completes in full puts them in
the file at the offset. -/
theorem small_write_is_buffered (B : Nat) (hM : B < SIZE_MODULUS) (fuel : Nat)
    (bf : buffered_file_t) (os : OS) (buf : List Byte) (count : Nat)
    (hpre : bf.preappend = 0) (hwp : bf.write_buffer_pos = 0)
    (hlen : bf.write_buffer.length = B) (hsmall : count < B)
    (hc : count ≤ buf.length) (hfuel : count ≤ fuel) :
    ∃ r bf2 os2,
      buffered_write B fuel bf os buf count = some (r, bf2, os2) ∧
      os2.content = os.content ∧ writes_issued os2 = writes_issued os ∧
      (r = -1 ↔ (bf.last_operation = 0 ∧ next_outcome os.seek_script = Outcome.error)) ∧
      (r = -1 → bf2 = bf) ∧
      (r ≠ -1 →
        r = (count : Int) ∧ bf2.write_buffer_pos = count ∧
        bf2.write_buffer.take count = buf.take count ∧ bf2.last_operation = 1 ∧
        (all_full os2.write_script →
          (buffered_flush bf2 os2).2.2.content
            = write_at os2.content os2.offset (buf.take count) ∧
          (buffered_close bf2 os2).2.content
            = write_at os2.content os2.offset (buf.take count))) := by
  have hunf : buffered_write B fuel bf os buf count =
      if (if bf.last_operation = 0 then os_lseek_end os else ((0 : Int), os)).1 = -1 then
        some (-1, bf, (if bf.last_operation = 0 then os_lseek_end os else ((0 : Int), os)).2)
      else
        match write_loop B buf count fuel bf
          (if bf.last_operation = 0 then os_lseek_end os else ((0 : Int), os)).2 0 with
        | none => none
        | some (false, _, bf1, os1) => some (-1, bf1, os1)
        | some (true, bytes_written, bf1, os1) =>
          some ((bytes_written : Int), { bf1 with last_operation := 1 }, os1) := by
    unfold buffered_write
    simp only [hpre, ne_eq, not_true_eq_false, if_false]
  -- the state after the seek, if any
  have hos0 : writes_issued
        (if bf.last_operation = 0 then os_lseek_end os else ((0 : Int), os)).2
        = writes_issued os ∧
      (if bf.last_operation = 0 then os_lseek_end os else ((0 : Int), os)).2.content
        = os.content := by
    split_ifs
    · exact writes_issued_lseek_end os
    · exact ⟨rfl, rfl⟩
  have hfail : (if bf.last_operation = 0 then os_lseek_end os else ((0 : Int), os)).1 = -1 ↔
      (bf.last_operation = 0 ∧ next_outcome os.seek_script = Outcome.error) := by
    split_ifs with hl
    · rw [os_lseek_end_fails]
      exact ⟨fun h => ⟨hl, h⟩, fun h => h.2⟩
    · exact ⟨fun h => by simp at h, fun h => absurd h.1 hl⟩
  by_cases hseek : (if bf.last_operation = 0 then os_lseek_end os else ((0 : Int), os)).1 = -1
  · refine ⟨-1, bf, _, by rw [hunf, if_pos hseek], hos0.2, hos0.1,
      ⟨fun _ => hfail.mp hseek, fun _ => rfl⟩, fun _ => rfl, fun h => absurd rfl h⟩
  · have hloop := write_loop_fits B hM buf count fuel bf
      (if bf.last_operation = 0 then os_lseek_end os else ((0 : Int), os)).2 0 (Nat.zero_le _)
      (by omega) (by omega) (fun h => by omega)
    simp only [Nat.sub_zero, hwp, Nat.zero_add] at hloop
    have htake : (memcpy bf.write_buffer 0 buf 0 count).take count = buf.take count := by
      have := memcpy_take bf.write_buffer 0 buf 0 count (Nat.zero_le _) (by omega)
      simpa using this
    have hmlen : count ≤ (memcpy bf.write_buffer 0 buf 0 count).length := by
      rw [memcpy_length _ _ _ _ _ (by omega) (by omega)]; omega
    refine ⟨(count : Int),
      { bf with write_buffer := memcpy bf.write_buffer 0 buf 0 count, write_buffer_pos := count,
                last_operation := 1 },
      _, by rw [hunf, if_neg hseek, hloop], hos0.2, hos0.1,
      ⟨fun h => by omega, fun h => absurd (hfail.mpr h) hseek⟩, fun h => by omega,
      fun _ => ⟨rfl, rfl, htake, rfl, fun hfull => ?_⟩⟩
    obtain ⟨os3, hf, hW⟩ := buffered_flush_full
      { bf with write_buffer := memcpy bf.write_buffer 0 buf 0 count, write_buffer_pos := count,
                last_operation := 1 } hfull hmlen
    constructor
    · rw [hf]
      simp only []
      rw [hW.content, htake]
    · rw [(buffered_close_full _ hfull hmlen).1]
      simp only []
      rw [htake]

/-- Witness for the amended C10: buffer size 4, a fresh instance, the bytes
`[7, 8, 9]`. -/
theorem small_write_is_buffered_witness :
    ∃ r bf2 os2,
      buffered_write 4 3 (fresh_instance 4 0 2 0) (boot [1, 2]) [7, 8, 9] 3 = some (r, bf2, os2) ∧
      os2.content = (boot [1, 2]).content ∧ writes_issued os2 = writes_issued (boot [1, 2]) ∧
      (r = -1 ↔ ((fresh_instance 4 0 2 0).last_operation = 0 ∧
        next_outcome (boot [1, 2]).seek_script = Outcome.error)) ∧
      (r = -1 → bf2 = fresh_instance 4 0 2 0) ∧
      (r ≠ -1 →
        r = ((3 : Nat) : Int) ∧ bf2.write_buffer_pos = 3 ∧
        bf2.write_buffer.take 3 = [7, 8, 9].take 3 ∧ bf2.last_operation = 1 ∧
        (all_full os2.write_script →
          (buffered_flush bf2 os2).2.2.content
            = write_at os2.content os2.offset ([7, 8, 9].take 3) ∧
          (buffered_close bf2 os2).2.content
            = write_at os2.content os2.offset ([7, 8, 9].take 3))) :=
  small_write_is_buffered 4 (by decide) 3 (fresh_instance 4 0 2 0) (boot [1, 2]) [7, 8, 9] 3
    rfl rfl (by decide) (by decide) (by decide) (by decide)

/-! ## Writing, whatever the operating system answers -/

theorem write_only_refl (os : OS) : WriteOnly os os := ⟨rfl, rfl, rfl, rfl, rfl, rfl, rfl⟩

theorem write_only_trans {os1 os2 os3 : OS} (h12 : WriteOnly os1 os2) (h23 : WriteOnly os2 os3) :
    WriteOnly os1 os3 where
  fd_open := h23.fd_open.trans h12.fd_open
  live := h23.live.trans h12.live
  open_script := h23.open_script.trans h12.open_script
  alloc_script := h23.alloc_script.trans h12.alloc_script
  seek_script := h23.seek_script.trans h12.seek_script
  read_script := h23.read_script.trans h12.read_script
  close_script := h23.close_script.trans h12.close_script

theorem same_write_side_refl (bf : buffered_file_t) : SameButWriteSide bf bf := by
  unfold SameButWriteSide; cases bf; rfl

theorem same_write_side_trans {bf1 bf2 bf3 : buffered_file_t} (h12 : SameButWriteSide bf1 bf2)
    (h23 : SameButWriteSide bf2 bf3) : SameButWriteSide bf1 bf3 := by
  unfold SameButWriteSide at *
  rw [h23, h12]

/-- What one `write` changes, whatever its outcome. -/
theorem os_write_spec (os : OS) (src : List Byte) (count : Nat) :
    WriteOnly os (os_write os src count).2 ∧
    writes_issued (os_write os src count).2 = writes_issued os ++ [src.take count] ∧
    reads_issued (os_write os src count).2 = reads_issued os := by
  unfold os_write
  split <;> exact ⟨⟨rfl, rfl, rfl, rfl, rfl, rfl, rfl⟩, by simp [writes_issued],
    by simp [reads_issued]⟩

/-- What `buffered_flush` does, whatever the `write` answers: it fails with the
instance unchanged, or succeeds with the write buffer emptied; it issues one
`write` of the pending bytes when there are any, and no other call. -/
theorem buffered_flush_spec (bf : buffered_file_t) (os : OS) :
    (((buffered_flush bf os).1 = -1 ∧ (buffered_flush bf os).2.1 = bf ∧
        0 < bf.write_buffer_pos) ∨
      ((buffered_flush bf os).1 = 0 ∧
        (buffered_flush bf os).2.1 = { bf with write_buffer_pos := 0 })) ∧
    WriteOnly os (buffered_flush bf os).2.2 ∧
    writes_issued (buffered_flush bf os).2.2
      = writes_issued os
        ++ (if 0 < bf.write_buffer_pos then [bf.write_buffer.take bf.write_buffer_pos] else []) ∧
    reads_issued (buffered_flush bf os).2.2 = reads_issued os := by
  obtain ⟨hwo, hwi, hri⟩ := os_write_spec os bf.write_buffer bf.write_buffer_pos
  rw [buffered_flush_eq]
  by_cases hp : bf.write_buffer_pos > 0
  · rw [if_pos hp, if_pos hp]
    split_ifs with h
    · exact ⟨Or.inl ⟨rfl, rfl, hp⟩, hwo, hwi, hri⟩
    · exact ⟨Or.inr ⟨rfl, rfl⟩, hwo, hwi, hri⟩
  · rw [if_neg hp, if_neg hp]
    refine ⟨Or.inr ⟨rfl, ?_⟩, write_only_refl os, by simp, rfl⟩
    have hz : bf.write_buffer_pos = 0 := by omega
    cases bf
    simp_all

theorem write_loop_done (B : Nat) (buf : List Byte) (count fuel : Nat) (bf : buffered_file_t)
    (os : OS) (bw : Nat) (h : ¬ bw < count) :
    write_loop B buf count fuel bf os bw = some (true, bw, bf, os) := by
  rw [write_loop.eq_def]
  simp [h]

/-- One iteration of the copy loop of `buffered_write`, written with
projections. -/
theorem write_loop_succ (B : Nat) (buf : List Byte) (count fuel : Nat) (bf : buffered_file_t)
    (os : OS) (bw : Nat) (h : bw < count) :
    write_loop B buf count (fuel + 1) bf os bw =
      if size_sub B bf.write_buffer_pos = 0 then
        if (buffered_flush bf os).1 = -1 then
          some (false, bw, (buffered_flush bf os).2.1, (buffered_flush bf os).2.2)
        else
          write_loop B buf count fuel
            { (buffered_flush bf os).2.1 with
              write_buffer := memcpy (buffered_flush bf os).2.1.write_buffer
                (buffered_flush bf os).2.1.write_buffer_pos buf bw
                (if count - bw < B then count - bw else B)
              write_buffer_pos := (buffered_flush bf os).2.1.write_buffer_pos
                + (if count - bw < B then count - bw else B) }
            (buffered_flush bf os).2.2
            (bw + (if count - bw < B then count - bw else B))
      else
        write_loop B buf count fuel
          { bf with
            write_buffer := memcpy bf.write_buffer bf.write_buffer_pos buf bw
              (if count - bw < size_sub B bf.write_buffer_pos then count - bw
                else size_sub B bf.write_buffer_pos)
            write_buffer_pos := bf.write_buffer_pos
              + (if count - bw < size_sub B bf.write_buffer_pos then count - bw
                else size_sub B bf.write_buffer_pos) }
          os
          (bw + (if count - bw < size_sub B bf.write_buffer_pos then count - bw
                else size_sub B bf.write_buffer_pos)) := by
  rw [write_loop]
  simp only [h, if_true]
  split_ifs <;> simp_all

/-- The copy loop of `buffered_write` ends within `count - bytes_written`
iterations, whatever the `write` calls answer.  It changes the write side of the
instance only and keeps `write_buffer_pos ≤ B`; it issues `write` calls only,
each of at most `B` bytes; when it ends without a failed flush, all bytes are
copied, each `write` it issued carried a full buffer, and the write buffer is
not empty if anything was copied. -/
theorem write_loop_total (B : Nat) (hB : 0 < B) (hM : B < SIZE_MODULUS) (buf : List Byte)
    (count : Nat) (hc : count ≤ buf.length) :
    ∀ (fuel : Nat) (bf : buffered_file_t) (os : OS) (bw : Nat),
      bw ≤ count → count ≤ bw + fuel →
      bf.write_buffer.length = B → bf.write_buffer_pos ≤ B →
      ∃ ok bw2 bf2 os2 ws,
        write_loop B buf count fuel bf os bw = some (ok, bw2, bf2, os2) ∧
        SameButWriteSide bf bf2 ∧ bf2.last_operation = bf.last_operation ∧
        bf2.write_buffer.length = B ∧ bf2.write_buffer_pos ≤ B ∧
        WriteOnly os os2 ∧ writes_issued os2 = writes_issued os ++ ws ∧
        reads_issued os2 = reads_issued os ∧
        (∀ d ∈ ws, d.length ≤ B) ∧
        (¬ bw < count → bf2 = bf ∧ os2 = os) ∧
        (ok = true → bw2 = count ∧
          ws.length * B + bf2.write_buffer_pos = bf.write_buffer_pos + (count - bw) ∧
          (bw < count → 0 < bf2.write_buffer_pos)) := by
  intro fuel
  induction fuel with
  | zero =>
    intro bf os bw hbw hfuel hlen hpos
    have hcnt : bw = count := by omega
    exact ⟨true, bw, bf, os, [], write_loop_done _ _ _ _ _ _ _ (by omega),
      same_write_side_refl bf, rfl, hlen, hpos, write_only_refl os, by simp, rfl,
      by simp, fun _ => ⟨rfl, rfl⟩, fun _ => ⟨hcnt, by simp; omega, fun h => by omega⟩⟩
  | succ n ih =>
    intro bf os bw hbw hfuel hlen hpos
    by_cases hlt : bw < count
    · rw [write_loop_succ _ _ _ _ _ _ _ hlt, size_sub_of_le hpos hM]
      by_cases hfull : bf.write_buffer_pos = B
      · -- the buffer is full: flush first
        rw [if_pos (by omega)]
        obtain ⟨hres, hwo, hwi, hri⟩ := buffered_flush_spec bf os
        rw [if_pos (by omega)] at hwi
        have hdlen : (bf.write_buffer.take bf.write_buffer_pos).length = B := by
          rw [List.length_take]; omega
        rcases hres with ⟨hr, hbf, _⟩ | ⟨hr, hbf⟩
        · -- the flush fails
          rw [if_pos hr]
          refine ⟨false, bw, _, _, [bf.write_buffer.take bf.write_buffer_pos], rfl, ?_, ?_, ?_, ?_,
            hwo, hwi, hri, ?_, fun h => absurd hlt h, fun h => by simp at h⟩
          · rw [hbf]; exact same_write_side_refl bf
          · rw [hbf]
          · rw [hbf]; exact hlen
          · rw [hbf]; exact hpos
          · intro d hd
            rw [List.mem_singleton] at hd
            rw [hd, hdlen]
        · -- the flush succeeds
          rw [if_neg (by rw [hr]; decide), hbf]
          simp only [Nat.zero_add]
          obtain ⟨tw, htw_def, htw0, htwB, htwc⟩ : ∃ tw,
              tw = (if count - bw < B then count - bw else B) ∧ 0 < tw ∧ tw ≤ B ∧
              bw + tw ≤ count := by
            refine ⟨_, rfl, ?_⟩
            split <;> omega
          rw [← htw_def]
          have hmlen : (memcpy bf.write_buffer 0 buf bw tw).length = B := by
            rw [memcpy_length _ _ _ _ _ (by omega) (by omega), hlen]
          obtain ⟨ok, bw2, bf2, os2, ws, hrun, hsame, hlast, hlen2, hpos2, hwo2, hwi2, hri2, hws,
              hdone, hok⟩ :=
            ih { bf with write_buffer := memcpy bf.write_buffer 0 buf bw tw, write_buffer_pos := tw }
              (buffered_flush bf os).2.2 (bw + tw) htwc (by omega) hmlen htwB
          refine ⟨ok, bw2, bf2, os2, bf.write_buffer.take bf.write_buffer_pos :: ws, hrun, ?_,
            hlast, hlen2, hpos2, write_only_trans hwo hwo2, ?_, by rw [hri2, hri], ?_,
            fun h => absurd hlt h, fun h => ?_⟩
          · exact same_write_side_trans (by unfold SameButWriteSide; rfl) hsame
          · rw [hwi2, hwi]; simp
          · intro d hd
            rcases List.mem_cons.mp hd with h | h
            · rw [h, hdlen]
            · exact hws d h
          · obtain ⟨h1, h2, h3⟩ := hok h
            refine ⟨h1, ?_, fun _ => ?_⟩
            · simp only [List.length_cons] at h2 ⊢
              rw [Nat.add_mul, Nat.one_mul]
              omega
            · by_cases hmore : bw + tw < count
              · exact h3 hmore
              · rw [(hdone hmore).1]
                exact htw0
      · -- there is room in the buffer
        rw [if_neg (by omega)]
        obtain ⟨tw, htw_def, htw0, htwB, htwc⟩ : ∃ tw,
            tw = (if count - bw < B - bf.write_buffer_pos then count - bw
              else B - bf.write_buffer_pos) ∧ 0 < tw ∧
            bf.write_buffer_pos + tw ≤ B ∧ bw + tw ≤ count := by
          refine ⟨_, rfl, ?_⟩
          split <;> omega
        rw [← htw_def]
        have hmlen : (memcpy bf.write_buffer bf.write_buffer_pos buf bw tw).length = B := by
          rw [memcpy_length _ _ _ _ _ (by omega) (by omega), hlen]
        obtain ⟨ok, bw2, bf2, os2, ws, hrun, hsame, hlast, hlen2, hpos2, hwo2, hwi2, hri2, hws,
            hdone, hok⟩ :=
          ih { bf with
              write_buffer := memcpy bf.write_buffer bf.write_buffer_pos buf bw tw
              write_buffer_pos := bf.write_buffer_pos + tw }
            os (bw + tw) htwc (by omega) hmlen htwB
        refine ⟨ok, bw2, bf2, os2, ws, hrun, ?_, hlast, hlen2, hpos2, hwo2, hwi2, hri2, hws,
          fun h => absurd hlt h, fun h => ?_⟩
        · exact same_write_side_trans (by unfold SameButWriteSide; rfl) hsame
        · obtain ⟨h1, h2, h3⟩ := hok h
          refine ⟨h1, ?_, fun _ => ?_⟩
          · simp only [] at h2
            omega
          · by_cases hmore : bw + tw < count
            · exact h3 hmore
            · rw [(hdone hmore).1]
              show 0 < bf.write_buffer_pos + tw
              omega
    · have hcnt : bw = count := by omega
      exact ⟨true, bw, bf, os, [], write_loop_done _ _ _ _ _ _ _ hlt,
        same_write_side_refl bf, rfl, hlen, hpos, write_only_refl os, by simp, rfl,
        by simp, fun _ => ⟨rfl, rfl⟩, fun _ => ⟨hcnt, by simp; omega, fun h => absurd h hlt⟩⟩

/-- The body of `buffered_write` outside pre-append mode, written with
projections. -/
theorem buffered_write_plain_eq (B fuel : Nat) (bf : buffered_file_t) (os : OS)
    (buf : List Byte) (count : Nat) (hpre : bf.preappend = 0) :
    buffered_write B fuel bf os buf count =
      if (if bf.last_operation = 0 then os_lseek_end os else ((0 : Int), os)).1 = -1 then
        some (-1, bf, (if bf.last_operation = 0 then os_lseek_end os else ((0 : Int), os)).2)
      else
        match write_loop B buf count fuel bf
          (if bf.last_operation = 0 then os_lseek_end os else ((0 : Int), os)).2 0 with
        | none => none
        | some (false, _, bf1, os1) => some (-1, bf1, os1)
        | some (true, bytes_written, bf1, os1) =>
          some ((bytes_written : Int), { bf1 with last_operation := 1 }, os1) := by
  unfold buffered_write
  simp only [hpre, ne_eq, not_true_eq_false, if_false]

/-- Closing issues at most the `write` of the flush. -/
theorem writes_issued_close (bf : buffered_file_t) (os : OS) :
    writes_issued (buffered_close bf os).2 = writes_issued (buffered_flush bf os).2.2 := by
  have hunf : buffered_close bf os =
      if (buffered_flush bf os).1 = -1 then (-1, free_before_exit (buffered_flush bf os).2.2)
      else ((os_close (buffered_flush bf os).2.2).1,
        free_before_exit (os_close (buffered_flush bf os).2.2).2) := by
    unfold buffered_close
    rfl
  rw [hunf]
  split_ifs
  · simp [writes_issued, free_before_exit, os_free]
  · unfold os_close
    split <;> simp [writes_issued, free_before_exit, os_free]

theorem ceil_div_of_chunks (k p N B : Nat) (h : k * B + p = N) (hp0 : 0 < p) (hpB : p ≤ B) :
    k + 1 = (N + B - 1) / B := by
  have e1 : (k + 1) * B = k * B + B := by ring
  have e2 : (k + 1 + 1) * B = k * B + B + B := by ring
  exact (Nat.div_eq_of_lt_le (by omega) (by omega)).symm

/-- C11 (number of underlying writes): for a buffer size `B` with
`0 < B < 2^64`, an instance outside pre-append mode with an empty write buffer of
`B` bytes whose last operation was not a read, and `N > B` bytes, with fuel `N`
or more: `buffered_write` returns `-1` or `N`, and it returns `N` when every
`write` completes in full; whenever it accepts the `N` bytes (it does not return
`-1`), the `write` calls issued by it and by the `buffered_close` that follows
are exactly `⌈N / B⌉` (that is `(N + B - 1) / B`), each of at most `B` bytes. -/
theorem number_of_underlying_writes (B : Nat) (hB : 0 < B) (hM : B < SIZE_MODULUS)
    (fuel : Nat) (bf : buffered_file_t) (os : OS) (buf : List Byte) (N : Nat)
    (hpre : bf.preappend = 0) (hlast : bf.last_operation ≠ 0)
    (hwp : bf.write_buffer_pos = 0) (hlen : bf.write_buffer.length = B)
    (hN : B < N) (hc : N ≤ buf.length) (hfuel : N ≤ fuel) :
    ∃ r bf2 os2,
      buffered_write B fuel bf os buf N = some (r, bf2, os2) ∧
      (r = -1 ∨ r = (N : Int)) ∧
      (all_full os.write_script → r = (N : Int)) ∧
      (r ≠ -1 →
        ∃ ws, writes_issued (buffered_close bf2 os2).2 = writes_issued os ++ ws ∧
          ws.length = (N + B - 1) / B ∧ ∀ d ∈ ws, d.length ≤ B) := by
  obtain ⟨ok, bw2, bf1, os1, ws, hrun, _, _, hlen1, hpos1, _, hwi, _, hws, _, hok⟩ :=
    write_loop_total B hB hM buf N hc fuel bf os 0 (Nat.zero_le _) (by omega) hlen (by omega)
  have hunf := buffered_write_plain_eq B fuel bf os buf N hpre
  simp only [hlast, if_false] at hunf
  rw [if_neg (by decide), hrun] at hunf
  have hsucc : all_full os.write_script → ok = true := by
    intro hfull
    obtain ⟨wb, pos, os2, d, hl, _⟩ :=
      write_loop_full B hB hM buf N hc fuel bf os 0 (Nat.zero_le _) (by omega) hfull hlen
        (by omega)
    rw [hl] at hrun
    simp only [Option.some.injEq, Prod.mk.injEq] at hrun
    exact hrun.1.symm
  cases ok with
  | false =>
    refine ⟨-1, bf1, os1, hunf, Or.inl rfl, fun hfull => ?_, fun h => absurd rfl h⟩
    have := hsucc hfull
    simp at this
  | true =>
    obtain ⟨hbw, hacc, hposlt⟩ := hok rfl
    subst hbw
    refine ⟨(bw2 : Int), { bf1 with last_operation := 1 }, os1, hunf, Or.inr rfl, fun _ => rfl,
      fun _ => ?_⟩
    have hpos0 : 0 < bf1.write_buffer_pos := hposlt (by omega)
    obtain ⟨_, _, hwif, _⟩ := buffered_flush_spec { bf1 with last_operation := 1 } os1
    refine ⟨ws ++ [bf1.write_buffer.take bf1.write_buffer_pos], ?_, ?_, ?_⟩
    · rw [writes_issued_close, hwif, hwi]
      simp [hpos0]
    · rw [List.length_append, List.length_singleton]
      exact ceil_div_of_chunks ws.length bf1.write_buffer_pos bw2 B (by omega) hpos0 hpos1
    · intro d hd
      rcases List.mem_append.mp hd with h | h
      · exact hws d h
      · rw [List.mem_singleton] at h
        rw [h, List.length_take]
        omega

/-- Witness for C11: buffer size 4, a fresh instance, 9 bytes. -/
theorem number_of_underlying_writes_witness :
    ∃ r bf2 os2,
      buffered_write 4 9 (fresh_instance 4 0 2 0) (boot []) [1, 2, 3, 4, 5, 6, 7, 8, 9] 9
        = some (r, bf2, os2) ∧
      (r = -1 ∨ r = ((9 : Nat) : Int)) ∧
      (all_full (boot []).write_script → r = ((9 : Nat) : Int)) ∧
      (r ≠ -1 →
        ∃ ws, writes_issued (buffered_close bf2 os2).2 = writes_issued (boot []) ++ ws ∧
          ws.length = (9 + 4 - 1) / 4 ∧ ∀ d ∈ ws, d.length ≤ 4) :=
  number_of_underlying_writes 4 (by decide) (by decide) 9 (fresh_instance 4 0 2 0) (boot [])
    [1, 2, 3, 4, 5, 6, 7, 8, 9] 9 rfl (by decide) rfl (by decide) (by decide) (by decide)
    (by decide)

/-- A `buffered_write` in pre-append mode either returns `-1` with the instance
untouched (a seek, the allocation or the read of the old content failed), or
goes on as `preappend_finish` after a `read` that did not fail. -/
theorem buffered_write_preappend_cases (B fuel : Nat) (bf : buffered_file_t) (os : OS)
    (buf : List Byte) (count : Nat) (hpre : bf.preappend ≠ 0) :
    (∃ os2, buffered_write B fuel bf os buf count = some (-1, bf, os2)) ∨
    (∃ os4 bytes_read temp_buf, bytes_read ≠ -1 ∧
      buffered_write B fuel bf os buf count
        = preappend_finish B fuel bf os4 buf count bytes_read temp_buf) := by
  unfold buffered_write preappend_finish
  rcases hS : (if bf.last_operation = 0 then os_lseek_end os else ((0 : Int), os)) with ⟨s1, s2⟩
  simp only [hpre, ne_eq, not_false_eq_true, if_true]
  by_cases h1 : s1 = -1
  · rw [if_pos h1]; exact Or.inl ⟨_, rfl⟩
  rw [if_neg h1]
  rcases hA : os_lseek_set s2 with ⟨a1, a2⟩
  simp only []
  by_cases h2 : a1 = -1
  · rw [if_pos h2]; exact Or.inl ⟨_, rfl⟩
  rw [if_neg h2]
  rcases hM : os_malloc a2 Block.temp_buf with ⟨m1, m2⟩
  simp only []
  by_cases h3 : (!m1) = true
  · rw [if_pos h3]; exact Or.inl ⟨_, rfl⟩
  rw [if_neg h3]
  rcases hR : os_read m2 B with ⟨r1, r2, r3⟩
  simp only []
  by_cases h4 : r1 = -1
  · rw [if_pos h4]; exact Or.inl ⟨_, rfl⟩
  rw [if_neg h4]
  rcases hA2 : os_lseek_set r3 with ⟨b1, b2⟩
  simp only []
  by_cases h5 : b1 = -1
  · rw [if_pos h5]; exact Or.inl ⟨_, rfl⟩
  rw [if_neg h5]
  exact Or.inr ⟨b2, r1, r2, h4, rfl⟩

/-- The last part of a pre-append write returns, whatever the `write` calls
answer: with `-1`, or with `count`, the mark of a write and an empty write
buffer; it changes the write side of the instance only. -/
theorem preappend_finish_total (B : Nat) (hB : 0 < B) (hM : B < SIZE_MODULUS) (fuel : Nat)
    (bf : buffered_file_t) (os4 : OS) (buf : List Byte) (count : Nat) (bytes_read : Int)
    (temp_buf : List Byte) (hc : count ≤ buf.length) (hfuel : count ≤ fuel)
    (hlen : bf.write_buffer.length = B) (hpos : bf.write_buffer_pos ≤ B) :
    ∃ r bf2 os2,
      preappend_finish B fuel bf os4 buf count bytes_read temp_buf = some (r, bf2, os2) ∧
      (r = -1 ∨ (r = (count : Int) ∧ bf2.last_operation = 1 ∧ bf2.write_buffer_pos = 0)) ∧
      SameButWriteSide bf bf2 ∧ bf2.write_buffer.length = B ∧ bf2.write_buffer_pos ≤ B := by
  obtain ⟨ok, bw2, bf1, os5, ws, hrun, hsame, _, hlen1, hpos1, _, _, _, _, _, hok⟩ :=
    write_loop_total B hB hM buf count hc fuel bf os4 0 (Nat.zero_le _) (by omega) hlen hpos
  unfold preappend_finish
  rw [hrun]
  cases ok with
  | false => exact ⟨-1, bf1, _, rfl, Or.inl rfl, hsame, hlen1, hpos1⟩
  | true =>
    obtain ⟨hbw, _, _⟩ := hok rfl
    subst hbw
    obtain ⟨hres, _, _, _⟩ := buffered_flush_spec bf1 os5
    simp only []
    rcases hres with ⟨hr, hbf, _⟩ | ⟨hr, hbf⟩
    · rw [if_pos hr, hbf]
      exact ⟨-1, bf1, _, rfl, Or.inl rfl, hsame, hlen1, hpos1⟩
    · rw [if_neg (by rw [hr]; decide), hbf]
      have hsame2 : SameButWriteSide bf { bf1 with write_buffer_pos := 0 } :=
        same_write_side_trans hsame (by unfold SameButWriteSide; rfl)
      have hsame3 : SameButWriteSide bf
          { bf1 with write_buffer_pos := 0, last_operation := 1 } :=
        same_write_side_trans hsame2 (by unfold SameButWriteSide; rfl)
      split_ifs
      all_goals first
        | exact ⟨-1, _, _, rfl, Or.inl rfl, hsame2, hlen1, Nat.zero_le _⟩
        | exact ⟨(bw2 : Int), _, _, rfl, Or.inr ⟨rfl, rfl, rfl⟩, hsame3, hlen1, Nat.zero_le _⟩

/-- With fuel `count` or more `buffered_write` returns, in both modes and
whatever the operating system answers: with `-1`, or with `count` and the mark
of a write.  It changes the write side of the instance only, keeps the write
buffer at `B` bytes and keeps `write_buffer_pos ≤ B`. -/
theorem buffered_write_total (B : Nat) (hB : 0 < B) (hM : B < SIZE_MODULUS) (fuel : Nat)
    (bf : buffered_file_t) (os : OS) (buf : List Byte) (count : Nat)
    (hc : count ≤ buf.length) (hfuel : count ≤ fuel)
    (hlen : bf.write_buffer.length = B) (hpos : bf.write_buffer_pos ≤ B) :
    ∃ r bf2 os2,
      buffered_write B fuel bf os buf count = some (r, bf2, os2) ∧
      (r = -1 ∨ (r = (count : Int) ∧ bf2.last_operation = 1)) ∧
      SameButWriteSide bf bf2 ∧ bf2.write_buffer.length = B ∧ bf2.write_buffer_pos ≤ B := by
  by_cases hpre : bf.preappend = 0
  · rw [buffered_write_plain_eq B fuel bf os buf count hpre]
    rcases hS : (if bf.last_operation = 0 then os_lseek_end os else ((0 : Int), os))
      with ⟨s1, s2⟩
    simp only []
    by_cases hs : s1 = -1
    · rw [if_pos hs]
      exact ⟨-1, bf, _, rfl, Or.inl rfl, same_write_side_refl bf, hlen, hpos⟩
    · rw [if_neg hs]
      obtain ⟨ok, bw2, bf1, os5, ws, hrun, hsame, _, hlen1, hpos1, _, _, _, _, _, hok⟩ :=
        write_loop_total B hB hM buf count hc fuel bf s2 0
          (Nat.zero_le _) (by omega) hlen hpos
      rw [hrun]
      cases ok with
      | false => exact ⟨-1, bf1, _, rfl, Or.inl rfl, hsame, hlen1, hpos1⟩
      | true =>
        obtain ⟨hbw, _, _⟩ := hok rfl
        subst hbw
        exact ⟨(bw2 : Int), _, _, rfl, Or.inr ⟨rfl, rfl⟩,
          same_write_side_trans hsame (by unfold SameButWriteSide; rfl), hlen1, hpos1⟩
  · rcases buffered_write_preappend_cases B fuel bf os buf count hpre with
      ⟨os2, h⟩ | ⟨os4, bytes_read, temp_buf, _, h⟩
    · exact ⟨-1, bf, os2, h, Or.inl rfl, same_write_side_refl bf, hlen, hpos⟩
    · obtain ⟨r, bf2, os2, hfin, hr, hsame, hlen2, hpos2⟩ :=
        preappend_finish_total B hB hM fuel bf os4 buf count bytes_read temp_buf hc hfuel hlen
          hpos
      refine ⟨r, bf2, os2, by rw [h, hfin], ?_, hsame, hlen2, hpos2⟩
      rcases hr with hr | ⟨hr, hl, _⟩
      · exact Or.inl hr
      · exact Or.inr ⟨hr, hl⟩

/-! ## Reading, whatever the operating system answers -/

theorem refill_pos_le (B : Nat) (bf : buffered_file_t) (os : OS)
    (h : bf.read_buffer_pos ≤ bf.read_buffer_size) :
    (refill B bf os).2.1.read_buffer_pos ≤ (refill B bf os).2.1.read_buffer_size := by
  rw [refill_eq]
  split_ifs <;> simp only [] <;> omega

/-- The loop of `buffered_read` keeps `read_buffer_pos ≤ read_buffer_size`. -/
theorem read_loop_pos_le (B : Nat) (hM : B < SIZE_MODULUS) (count : Nat) :
    ∀ (fuel : Nat) (bf : buffered_file_t) (os : OS) (buf : List Byte) (br : Nat)
      (r : Nat) (bf2 : buffered_file_t) (os2 : OS) (buf2 : List Byte),
      read_loop B count fuel bf os buf br = some (r, bf2, os2, buf2) →
      bf.read_buffer.length = B → bf.read_buffer_size ≤ B →
      bf.read_buffer_pos ≤ bf.read_buffer_size →
      bf2.read_buffer_pos ≤ bf2.read_buffer_size := by
  intro fuel
  induction fuel with
  | zero =>
    intro bf os buf br r bf2 os2 buf2 hrun _ _ hle
    by_cases hlt : br < count
    · rw [read_loop.eq_def] at hrun
      simp [hlt] at hrun
    · rw [read_loop_done _ _ _ _ _ _ _ hlt] at hrun
      simp only [Option.some.injEq, Prod.mk.injEq] at hrun
      rw [← hrun.2.1]
      exact hle
  | succ n ih =>
    intro bf os buf br r bf2 os2 buf2 hrun hlen hsize hle
    by_cases hlt : br < count
    · obtain ⟨_, _, hlen1, hsize1, hpos1⟩ := refill_spec B bf os hlen hsize
      have hle1 := refill_pos_le B bf os hle
      rw [read_loop_succ _ _ _ _ _ _ _ hlt] at hrun
      cases hstop : (refill B bf os).1 with
      | true =>
        rw [hstop] at hrun
        simp only [if_true, Option.some.injEq, Prod.mk.injEq] at hrun
        rw [← hrun.2.1]
        exact hle1
      | false =>
        have hp := hpos1 hstop
        rw [hstop, size_sub_of_le (by omega) (by omega)] at hrun
        simp only [Bool.false_eq_true, if_false] at hrun
        refine ih _ _ _ _ _ _ _ _ hrun hlen1 hsize1 ?_
        simp only []
        split <;> omega
    · rw [read_loop_done _ _ _ _ _ _ _ hlt] at hrun
      simp only [Option.some.injEq, Prod.mk.injEq] at hrun
      rw [← hrun.2.1]
      exact hle

/-- The body of `buffered_read`, written with projections. -/
theorem buffered_read_eq (B fuel : Nat) (bf : buffered_file_t) (os : OS) (buf : List Byte)
    (count : Nat) :
    buffered_read B fuel bf os buf count =
      if (buffered_flush bf os).1 = -1 then
        some (-1, (buffered_flush bf os).2.1, (buffered_flush bf os).2.2, buf)
      else
        match read_loop B count fuel (buffered_flush bf os).2.1 (buffered_flush bf os).2.2 buf 0
        with
        | none => none
        | some (bytes_read, bf1, os1, buf1) =>
          if bytes_read < count then
            some ((bytes_read : Int), { bf1 with last_operation := 0 }, os1, buf1.set bytes_read 0)
          else some ((bytes_read : Int), { bf1 with last_operation := 0 }, os1, buf1) := by
  unfold buffered_read
  rfl

/-- With fuel `count` or more `buffered_read` returns, whatever the operating
system answers.  When the flush at the start fails it returns `-1` and leaves
the instance and the caller's buffer untouched, the only call issued being the
`write` of the flush.  Otherwise it returns a count between 0 and `count`, with
an empty write buffer and the mark of a read; it changes the read side of the
instance only and keeps the read buffer within bounds. -/
theorem buffered_read_outcomes (B : Nat) (hM : B < SIZE_MODULUS) (fuel : Nat)
    (bf : buffered_file_t) (os : OS) (buf : List Byte) (count : Nat)
    (hfuel : count ≤ fuel) (hbuf : count ≤ buf.length)
    (hlen : bf.read_buffer.length = B) (hsize : bf.read_buffer_size ≤ B) :
    ∃ r bf2 os2 buf2,
      buffered_read B fuel bf os buf count = some (r, bf2, os2, buf2) ∧
      ((buffered_flush bf os).1 = -1 →
        r = -1 ∧ bf2 = bf ∧ buf2 = buf ∧ os2 = (buffered_flush bf os).2.2) ∧
      ((buffered_flush bf os).1 ≠ -1 →
        0 ≤ r ∧ r ≤ (count : Int) ∧ bf2.write_buffer_pos = 0 ∧ bf2.last_operation = 0 ∧
        ReadOnly (buffered_flush bf os).2.2 os2 ∧
        SameButReadSide { bf with write_buffer_pos := 0, last_operation := 0 } bf2 ∧
        bf2.read_buffer.length = B ∧ bf2.read_buffer_size ≤ B ∧
        (bf.read_buffer_pos ≤ bf.read_buffer_size →
          bf2.read_buffer_pos ≤ bf2.read_buffer_size)) := by
  obtain ⟨hres, _, _, _⟩ := buffered_flush_spec bf os
  rw [buffered_read_eq]
  by_cases hfl : (buffered_flush bf os).1 = -1
  · rw [if_pos hfl]
    have hbf : (buffered_flush bf os).2.1 = bf := by
      rcases hres with ⟨_, h, _⟩ | ⟨h, _⟩
      · exact h
      · rw [h] at hfl; simp at hfl
    exact ⟨-1, _, _, buf, rfl, fun _ => ⟨rfl, hbf, rfl, rfl⟩, fun h => absurd hfl h⟩
  · rw [if_neg hfl]
    have hbf : (buffered_flush bf os).2.1 = { bf with write_buffer_pos := 0 } := by
      rcases hres with ⟨h, _, _⟩ | ⟨_, h⟩
      · exact absurd h hfl
      · exact h
    rw [hbf]
    obtain ⟨r, bf1, os1, buf1, hrun, _, hr, _, _, _, hro, hsame, hlen1, hsize1⟩ :=
      read_loop_total B hM count fuel { bf with write_buffer_pos := 0 }
        (buffered_flush bf os).2.2 buf 0 (Nat.zero_le _) (by omega) hbuf hlen hsize
    have hle := read_loop_pos_le B hM count fuel _ _ _ _ _ _ _ _ hrun hlen hsize
    have hsame2 : SameButReadSide { bf with write_buffer_pos := 0, last_operation := 0 }
        { bf1 with last_operation := 0 } := by
      unfold SameButReadSide at hsame ⊢
      rw [hsame]
    have hwp : bf1.write_buffer_pos = 0 := by
      unfold SameButReadSide at hsame
      rw [hsame]
    rw [hrun]
    simp only []
    split_ifs
    · exact ⟨(r : Int), _, _, _, rfl, fun h => absurd h hfl,
        fun _ => ⟨by omega, by omega, hwp, rfl, hro, hsame2, hlen1, hsize1, hle⟩⟩
    · exact ⟨(r : Int), _, _, _, rfl, fun h => absurd h hfl,
        fun _ => ⟨by omega, by omega, hwp, rfl, hro, hsame2, hlen1, hsize1, hle⟩⟩

/-! ## The buffer position invariant -/

/-- C12 (buffer position invariant): for a buffer size `B` with `0 < B < 2^64`,
the predicate `read_buffer_pos ≤ read_buffer_size ≤ B` and
`write_buffer_pos ≤ B` (with both buffers of `B` bytes) holds for every instance
`buffered_open` returns, and `buffered_flush`, `buffered_write` (both modes) and
`buffered_read` keep it, whatever they return and whatever the operating system
answers; with fuel `count` or more `buffered_write` and `buffered_read` do
return. -/
theorem buffer_invariant_preserved (B : Nat) (hB : 0 < B) (hM : B < SIZE_MODULUS) :
    (∀ (O_PREAPPEND : Int) (garbage : Byte) (flags : Int) (os os1 : OS) (bf : buffered_file_t),
      buffered_open B O_PREAPPEND garbage flags os = (some bf, os1) →
      buffer_invariant B bf ∧ buffers_allocated B bf) ∧
    (∀ (bf : buffered_file_t) (os : OS),
      buffer_invariant B bf → buffers_allocated B bf →
      buffer_invariant B (buffered_flush bf os).2.1 ∧
      buffers_allocated B (buffered_flush bf os).2.1) ∧
    (∀ (fuel : Nat) (bf : buffered_file_t) (os : OS) (buf : List Byte) (count : Nat),
      count ≤ buf.length → count ≤ fuel →
      buffer_invariant B bf → buffers_allocated B bf →
      ∃ r bf2 os2, buffered_write B fuel bf os buf count = some (r, bf2, os2) ∧
        buffer_invariant B bf2 ∧ buffers_allocated B bf2) ∧
    (∀ (fuel : Nat) (bf : buffered_file_t) (os : OS) (buf : List Byte) (count : Nat),
      count ≤ buf.length → count ≤ fuel →
      buffer_invariant B bf → buffers_allocated B bf →
      ∃ r bf2 os2 buf2, buffered_read B fuel bf os buf count = some (r, bf2, os2, buf2) ∧
        buffer_invariant B bf2 ∧ buffers_allocated B bf2) := by
  refine ⟨?_, ?_, ?_, ?_⟩
  · intro O_PREAPPEND garbage flags os os1 bf hopen
    obtain ⟨⟨hrb, hwb, hrs, hrp, hwp, _, _⟩, _⟩ := buffered_open_some hopen
    exact ⟨⟨by omega, by omega, by omega⟩, by rw [hrb]; simp, by rw [hwb]; simp⟩
  · intro bf os hinv halloc
    obtain ⟨hres, _, _, _⟩ := buffered_flush_spec bf os
    rcases hres with ⟨_, h, _⟩ | ⟨_, h⟩
    · rw [h]; exact ⟨hinv, halloc⟩
    · rw [h]; exact ⟨⟨hinv.1, hinv.2.1, Nat.zero_le _⟩, halloc⟩
  · intro fuel bf os buf count hc hfuel hinv halloc
    obtain ⟨r, bf2, os2, hrun, _, hsame, hlen2, hpos2⟩ :=
      buffered_write_total B hB hM fuel bf os buf count hc hfuel halloc.2 hinv.2.2
    unfold SameButWriteSide at hsame
    refine ⟨r, bf2, os2, hrun, ⟨?_, ?_, hpos2⟩, ?_, hlen2⟩
    · rw [hsame]; exact hinv.1
    · rw [hsame]; exact hinv.2.1
    · rw [hsame]; exact halloc.1
  · intro fuel bf os buf count hc hfuel hinv halloc
    obtain ⟨r, bf2, os2, buf2, hrun, hfail, hgood⟩ :=
      buffered_read_outcomes B hM fuel bf os buf count hfuel hc halloc.1 hinv.2.1
    refine ⟨r, bf2, os2, buf2, hrun, ?_⟩
    by_cases hfl : (buffered_flush bf os).1 = -1
    · rw [(hfail hfl).2.1]; exact ⟨hinv, halloc⟩
    · obtain ⟨_, _, hwp, _, _, hsame, hlen2, hsize2, hle⟩ := hgood hfl
      unfold SameButReadSide at hsame
      refine ⟨⟨hle hinv.1, hsize2, by omega⟩, hlen2, ?_⟩
      rw [hsame]; exact halloc.2

/-- Witness for C12: buffer size 4, a fresh instance, a write of 9 bytes. -/
theorem buffer_invariant_preserved_witness :
    ∃ r bf2 os2,
      buffered_write 4 9 (fresh_instance 4 0 2 0) (boot []) [1, 2, 3, 4, 5, 6, 7, 8, 9] 9
        = some (r, bf2, os2) ∧
      buffer_invariant 4 bf2 ∧ buffers_allocated 4 bf2 :=
  (buffer_invariant_preserved 4 (by decide) (by decide)).2.2.1 9 (fresh_instance 4 0 2 0)
    (boot []) [1, 2, 3, 4, 5, 6, 7, 8, 9] 9 (by decide) (by decide)
    ⟨by decide, by decide, by decide⟩ ⟨by decide, by decide⟩

/-! ## Reading flushes first -/

/-- C13 (a read flushes first and fails only when the flush fails): for an
instance whose read buffer has `B` bytes (`B < 2^64`) of which at most `B` are
marked valid, a caller's buffer of at least `count` bytes and every answer of
the operating system, with fuel `count` or more, `buffered_read` returns; it
returns `-1` exactly when the flush of the write buffer, made first whatever
`last_operation` is, fails, and then it issues no `read` and leaves the instance
(so the read buffer and `last_operation`) and the caller's buffer unchanged;
otherwise it returns a count between 0 and `count` with `write_buffer_pos = 0`
and `last_operation = 0` (a read), after the flush it issues `read` calls only,
and no answer of a `read` makes it return `-1`. -/
theorem read_flushes_first (B : Nat) (hM : B < SIZE_MODULUS) (fuel : Nat)
    (bf : buffered_file_t) (os : OS) (buf : List Byte) (count : Nat)
    (hfuel : count ≤ fuel) (hbuf : count ≤ buf.length)
    (hlen : bf.read_buffer.length = B) (hsize : bf.read_buffer_size ≤ B) :
    ∃ r bf2 os2 buf2,
      buffered_read B fuel bf os buf count = some (r, bf2, os2, buf2) ∧
      (r = -1 ↔ (buffered_flush bf os).1 = -1) ∧
      ((buffered_flush bf os).1 = -1 →
        bf2 = bf ∧ buf2 = buf ∧ os2 = (buffered_flush bf os).2.2 ∧
        reads_issued os2 = reads_issued os) ∧
      ((buffered_flush bf os).1 ≠ -1 →
        0 ≤ r ∧ r ≤ (count : Int) ∧ bf2.write_buffer_pos = 0 ∧ bf2.last_operation = 0 ∧
        ReadOnly (buffered_flush bf os).2.2 os2) := by
  obtain ⟨r, bf2, os2, buf2, hrun, hfail, hgood⟩ :=
    buffered_read_outcomes B hM fuel bf os buf count hfuel hbuf hlen hsize
  obtain ⟨_, _, _, hri⟩ := buffered_flush_spec bf os
  refine ⟨r, bf2, os2, buf2, hrun, ⟨fun hr => ?_, fun hfl => (hfail hfl).1⟩, fun hfl => ?_,
    fun hfl => ?_⟩
  · by_contra hfl
    have := (hgood hfl).1
    omega
  · obtain ⟨_, h1, h2, h3⟩ := hfail hfl
    exact ⟨h1, h2, h3, by rw [h3, hri]⟩
  · obtain ⟨h1, h2, h3, h4, h5, _⟩ := hgood hfl
    exact ⟨h1, h2, h3, h4, h5⟩

/-- Witness for C13: buffer size 4, one pending byte whose flush fails. -/
theorem read_flushes_first_witness :
    ∃ r bf2 os2 buf2,
      buffered_read 4 2 { fresh_instance 4 0 2 0 with write_buffer_pos := 1 }
          (boot_scripted [1, 2] [] [] [Outcome.error] []) [9, 9] 2
        = some (r, bf2, os2, buf2) ∧
      (r = -1 ↔ (buffered_flush { fresh_instance 4 0 2 0 with write_buffer_pos := 1 }
          (boot_scripted [1, 2] [] [] [Outcome.error] [])).1 = -1) ∧
      ((buffered_flush { fresh_instance 4 0 2 0 with write_buffer_pos := 1 }
          (boot_scripted [1, 2] [] [] [Outcome.error] [])).1 = -1 →
        bf2 = { fresh_instance 4 0 2 0 with write_buffer_pos := 1 } ∧ buf2 = [9, 9] ∧
        os2 = (buffered_flush { fresh_instance 4 0 2 0 with write_buffer_pos := 1 }
          (boot_scripted [1, 2] [] [] [Outcome.error] [])).2.2 ∧
        reads_issued os2 = reads_issued (boot_scripted [1, 2] [] [] [Outcome.error] [])) ∧
      ((buffered_flush { fresh_instance 4 0 2 0 with write_buffer_pos := 1 }
          (boot_scripted [1, 2] [] [] [Outcome.error] [])).1 ≠ -1 →
        0 ≤ r ∧ r ≤ ((2 : Nat) : Int) ∧ bf2.write_buffer_pos = 0 ∧ bf2.last_operation = 0 ∧
        ReadOnly (buffered_flush { fresh_instance 4 0 2 0 with write_buffer_pos := 1 }
          (boot_scripted [1, 2] [] [] [Outcome.error] [])).2.2 os2) :=
  read_flushes_first 4 (by decide) 2 { fresh_instance 4 0 2 0 with write_buffer_pos := 1 }
    (boot_scripted [1, 2] [] [] [Outcome.error] []) [9, 9] 2 (by decide) (by decide) (by decide)
    (by decide)

/-! ## The pre-append flag stays private -/

/-- When no bit of a mask is set in a value, clearing the mask changes no bit. -/
theorem testBit_of_land_eq_zero (flags mask : Int) (h : Int.land flags mask = 0) (k : Nat) :
    Int.testBit flags k = (Int.testBit flags k && !Int.testBit mask k) := by
  have h1 : Int.testBit (Int.land flags mask) k = false := by
    rw [h]; simp [Int.testBit]
  rw [Int.testBit_land] at h1
  cases hf : Int.testBit flags k <;> cases hm : Int.testBit mask k <;> simp_all

/-- An allocation is no `open` call. -/
theorem opens_issued_malloc (os : OS) (b : Block) :
    opens_issued (os_malloc os b).2 = opens_issued os := by
  unfold os_malloc opens_issued
  simp only []
  split <;> simp [List.filterMap_append]

/-- A release is no `open` call. -/
theorem opens_issued_free (os : OS) (b : Block) :
    opens_issued (os_free os b) = opens_issued os := by
  unfold os_free opens_issued
  simp [List.filterMap_append]

/-- An `open` call is recorded with its flags. -/
theorem opens_issued_open (os : OS) (f : Int) :
    opens_issued (os_open os f).2 = opens_issued os ++ [f] := by
  unfold os_open opens_issued
  simp only []
  split <;> simp [List.filterMap_append]

/-- The `open` calls of `buffered_open`: none when an allocation fails, else one. -/
theorem buffered_open_opens (B : Nat) (O_PREAPPEND : Int) (garbage : Byte) (flags : Int)
    (os : OS) :
    opens_issued (buffered_open B O_PREAPPEND garbage flags os).2 = opens_issued os ∨
    opens_issued (buffered_open B O_PREAPPEND garbage flags os).2
      = opens_issued os ++
          [if Int.land flags O_PREAPPEND ≠ 0 then Int.land flags (Int.lnot O_PREAPPEND)
           else flags] := by
  unfold buffered_open
  simp only []
  split_ifs <;>
    simp [opens_issued_malloc, opens_issued_free, opens_issued_open]

/-- C14 (flag extraction in `buffered_open`): whenever `buffered_open` returns an
instance, its `preappend` field is 1 exactly when `flags & O_PREAPPEND` is not
zero and is 0 otherwise; the flags stored in the instance have, at every bit
position, the bit of `flags` with the bits of `O_PREAPPEND` cleared, and these
stored flags are the ones given to the one `open` call made; and on every path
of `buffered_open`, returning an instance or not, every `open` call it adds
carries flags with the bits of `O_PREAPPEND` cleared and the others unchanged. -/
theorem preappend_flag_is_private (B : Nat) (O_PREAPPEND : Int) (garbage : Byte) (flags : Int)
    (os : OS) :
    (∀ (bf : buffered_file_t) (os1 : OS),
      buffered_open B O_PREAPPEND garbage flags os = (some bf, os1) →
      (bf.preappend = 1 ↔ Int.land flags O_PREAPPEND ≠ 0) ∧
      (bf.preappend = 0 ↔ Int.land flags O_PREAPPEND = 0) ∧
      (Int.land flags O_PREAPPEND ≠ 0 → bf.flags = Int.land flags (Int.lnot O_PREAPPEND)) ∧
      (∀ k, Int.testBit bf.flags k = (Int.testBit flags k && !Int.testBit O_PREAPPEND k)) ∧
      opens_issued os1 = opens_issued os ++ [bf.flags]) ∧
    (∃ fs, opens_issued (buffered_open B O_PREAPPEND garbage flags os).2 = opens_issued os ++ fs ∧
      ∀ f ∈ fs, ∀ k, Int.testBit f k = (Int.testBit flags k && !Int.testBit O_PREAPPEND k)) := by
  have hbits : ∀ k, Int.testBit
      (if Int.land flags O_PREAPPEND ≠ 0 then Int.land flags (Int.lnot O_PREAPPEND) else flags) k
      = (Int.testBit flags k && !Int.testBit O_PREAPPEND k) := by
    intro k
    by_cases h0 : Int.land flags O_PREAPPEND = 0
    · rw [if_neg (by simpa using h0)]
      exact testBit_of_land_eq_zero flags O_PREAPPEND h0 k
    · rw [if_pos h0, Int.testBit_land, Int.testBit_lnot]
  constructor
  · intro bf os1 hopen
    have hpre := (buffered_open_some hopen).1.2.2.2.2.2.2
    have hflags : bf.flags
        = (if Int.land flags O_PREAPPEND ≠ 0 then Int.land flags (Int.lnot O_PREAPPEND)
           else flags) ∧
        opens_issued os1 = opens_issued os ++ [bf.flags] := by
      unfold buffered_open at hopen
      simp only [] at hopen
      split_ifs at hopen
      all_goals first
        | (exfalso; simp at hopen; done)
        | (obtain ⟨hbf, hos⟩ := Prod.mk.inj hopen
           have hbf2 := Option.some.inj hbf
           subst hbf2
           subst hos
           simp [opens_issued_malloc, opens_issued_open, *])
    refine ⟨?_, ?_, ?_, ?_, hflags.2⟩
    · rw [hpre]; split_ifs <;> simp_all
    · rw [hpre]; split_ifs <;> simp_all
    · intro h0; rw [hflags.1, if_pos h0]
    · intro k; rw [hflags.1]; exact hbits k
  · rcases buffered_open_opens B O_PREAPPEND garbage flags os with h | h
    · exact ⟨[], by rw [h]; simp, by simp⟩
    · refine ⟨_, h, ?_⟩
      intro f hf k
      rw [List.mem_singleton] at hf
      rw [hf]; exact hbits k

/-- Witness for C14: buffer size 4, `O_PREAPPEND = 4`, flags `6`. -/
theorem preappend_flag_is_private_witness :
    ((fresh_instance 4 0 (Int.land 6 (Int.lnot 4)) 1).preappend = 1 ↔ Int.land 6 4 ≠ 0) ∧
    (∀ k, Int.testBit (fresh_instance 4 0 (Int.land 6 (Int.lnot 4)) 1).flags k
      = (Int.testBit 6 k && !Int.testBit 4 k)) :=
  have hbit : Int.land 6 4 = 4 := by decide
  have hopen : buffered_open 4 4 0 6 (boot [])
      = (some (fresh_instance 4 0 (Int.land 6 (Int.lnot 4)) 1),
          (buffered_open 4 4 0 6 (boot [])).2) :=
    Prod.ext (by simp [buffered_open, os_malloc, os_open, boot, next_outcome, hbit,
      fresh_instance]) rfl
  ⟨((preappend_flag_is_private 4 4 0 6 (boot [])).1 _ _ hopen).1,
   ((preappend_flag_is_private 4 4 0 6 (boot [])).1 _ _ hopen).2.2.2.1⟩

/-! ## The descriptor, the flags and the mode never change -/

/-- `buffered_flush` keeps the descriptor, the flags and the mode. -/
theorem buffered_flush_handle (bf : buffered_file_t) (os : OS) :
    SameHandle bf (buffered_flush bf os).2.1 := by
  unfold SameHandle
  rw [buffered_flush_bf bf os]
  exact ⟨rfl, rfl, rfl⟩

/-- The copy loop of `buffered_write` keeps the descriptor, the flags and the
mode, for every instance state and whatever the fuel. -/
theorem write_loop_handle (B : Nat) (buf : List Byte) (count : Nat) :
    ∀ (fuel : Nat) (bf : buffered_file_t) (os : OS) (bw : Nat) (ok : Bool) (bw2 : Nat)
      (bf2 : buffered_file_t) (os2 : OS),
      write_loop B buf count fuel bf os bw = some (ok, bw2, bf2, os2) → SameHandle bf bf2 := by
  intro fuel
  induction fuel with
  | zero =>
    intro bf os bw ok bw2 bf2 os2 hrun
    by_cases h : bw < count
    · rw [write_loop.eq_def] at hrun
      simp [h] at hrun
    · rw [write_loop_done B buf count 0 bf os bw h] at hrun
      simp only [Option.some.injEq, Prod.mk.injEq] at hrun
      rw [← hrun.2.2.1]
      exact ⟨rfl, rfl, rfl⟩
  | succ fuel ih =>
    intro bf os bw ok bw2 bf2 os2 hrun
    by_cases h : bw < count
    · rw [write_loop_succ B buf count fuel bf os bw h] at hrun
      have hfl := buffered_flush_handle bf os
      unfold SameHandle at hfl
      split_ifs at hrun
      all_goals first
        | (simp only [Option.some.injEq, Prod.mk.injEq] at hrun
           rw [← hrun.2.2.1]
           exact hfl)
        | (have h2 := ih _ _ _ _ _ _ _ hrun
           unfold SameHandle at h2 ⊢
           simp only [] at h2
           first
             | exact h2
             | exact ⟨h2.1.trans hfl.1, h2.2.1.trans hfl.2.1, h2.2.2.trans hfl.2.2⟩)
    · rw [write_loop_done B buf count (fuel + 1) bf os bw h] at hrun
      simp only [Option.some.injEq, Prod.mk.injEq] at hrun
      rw [← hrun.2.2.1]
      exact ⟨rfl, rfl, rfl⟩

/-- The tail of the pre-append branch keeps the descriptor, the flags and the mode. -/
theorem preappend_finish_handle (B fuel : Nat) (bf : buffered_file_t) (os4 : OS)
    (buf : List Byte) (count : Nat) (bytes_read : Int) (temp_buf : List Byte)
    (r : Int) (bf2 : buffered_file_t) (os2 : OS)
    (hrun : preappend_finish B fuel bf os4 buf count bytes_read temp_buf = some (r, bf2, os2)) :
    SameHandle bf bf2 := by
  unfold preappend_finish at hrun
  rcases hloop : write_loop B buf count fuel bf os4 0 with _ | ⟨ok, bw, bf1, os5⟩
  · rw [hloop] at hrun
    simp at hrun
  · rw [hloop] at hrun
    have h1 := write_loop_handle B buf count fuel bf os4 0 ok bw bf1 os5 hloop
    have hfl := buffered_flush_handle bf1 os5
    unfold SameHandle at h1 hfl ⊢
    cases ok
    · simp only [Option.some.injEq, Prod.mk.injEq] at hrun
      rw [← hrun.2.1]
      exact h1
    · simp only [] at hrun
      split_ifs at hrun
      all_goals
        simp only [Option.some.injEq, Prod.mk.injEq] at hrun
        rw [← hrun.2.1]
        exact ⟨hfl.1.trans h1.1, hfl.2.1.trans h1.2.1, hfl.2.2.trans h1.2.2⟩

/-- `buffered_write` keeps the descriptor, the flags and the mode, for every
instance state, count, fuel and answer of the operating system. -/
theorem buffered_write_handle (B fuel : Nat) (bf : buffered_file_t) (os : OS)
    (buf : List Byte) (count : Nat) (r : Int) (bf2 : buffered_file_t) (os2 : OS)
    (hrun : buffered_write B fuel bf os buf count = some (r, bf2, os2)) :
    SameHandle bf bf2 := by
  by_cases hpre : bf.preappend = 0
  · rw [buffered_write_plain_eq B fuel bf os buf count hpre] at hrun
    generalize (if bf.last_operation = 0 then os_lseek_end os else ((0 : Int), os)) = S at hrun
    by_cases hs : S.1 = -1
    · rw [if_pos hs] at hrun
      simp only [Option.some.injEq, Prod.mk.injEq] at hrun
      rw [← hrun.2.1]
      exact ⟨rfl, rfl, rfl⟩
    · rw [if_neg hs] at hrun
      rcases hloop : write_loop B buf count fuel bf S.2 0 with _ | ⟨ok, bw, bf1, os5⟩
      · rw [hloop] at hrun
        simp at hrun
      · rw [hloop] at hrun
        have h1 := write_loop_handle B buf count fuel bf _ 0 ok bw bf1 os5 hloop
        unfold SameHandle at h1 ⊢
        cases ok
        all_goals
          simp only [Option.some.injEq, Prod.mk.injEq] at hrun
          rw [← hrun.2.1]
          exact h1
  · rcases buffered_write_preappend_cases B fuel bf os buf count hpre with
      ⟨os3, h⟩ | ⟨os4, bytes_read, temp_buf, _, h⟩
    · rw [h] at hrun
      simp only [Option.some.injEq, Prod.mk.injEq] at hrun
      rw [← hrun.2.1]
      exact ⟨rfl, rfl, rfl⟩
    · rw [h] at hrun
      exact preappend_finish_handle B fuel bf os4 buf count bytes_read temp_buf r bf2 os2 hrun

/-- Filling the read buffer keeps the descriptor, the flags and the mode. -/
theorem refill_handle (B : Nat) (bf : buffered_file_t) (os : OS) :
    SameHandle bf (refill B bf os).2.1 := by
  rw [refill_eq]
  unfold SameHandle
  split_ifs <;> exact ⟨rfl, rfl, rfl⟩

/-- The loop of `buffered_read` keeps the descriptor, the flags and the mode,
for every instance state and whatever the fuel. -/
theorem read_loop_handle (B : Nat) (count : Nat) :
    ∀ (fuel : Nat) (bf : buffered_file_t) (os : OS) (buf : List Byte) (br : Nat) (br2 : Nat)
      (bf2 : buffered_file_t) (os2 : OS) (buf2 : List Byte),
      read_loop B count fuel bf os buf br = some (br2, bf2, os2, buf2) → SameHandle bf bf2 := by
  intro fuel
  induction fuel with
  | zero =>
    intro bf os buf br br2 bf2 os2 buf2 hrun
    by_cases h : br < count
    · rw [read_loop.eq_def] at hrun
      simp [h] at hrun
    · rw [read_loop_done B count 0 bf os buf br h] at hrun
      simp only [Option.some.injEq, Prod.mk.injEq] at hrun
      rw [← hrun.2.1]
      exact ⟨rfl, rfl, rfl⟩
  | succ fuel ih =>
    intro bf os buf br br2 bf2 os2 buf2 hrun
    by_cases h : br < count
    · rw [read_loop_succ B count fuel bf os buf br h] at hrun
      have hfl := refill_handle B bf os
      unfold SameHandle at hfl
      split_ifs at hrun
      all_goals first
        | (simp only [Option.some.injEq, Prod.mk.injEq] at hrun
           rw [← hrun.2.1]
           exact hfl)
        | (have h2 := ih _ _ _ _ _ _ _ _ hrun
           unfold SameHandle at h2 ⊢
           simp only [] at h2
           exact ⟨h2.1.trans hfl.1, h2.2.1.trans hfl.2.1, h2.2.2.trans hfl.2.2⟩)
    · rw [read_loop_done B count (fuel + 1) bf os buf br h] at hrun
      simp only [Option.some.injEq, Prod.mk.injEq] at hrun
      rw [← hrun.2.1]
      exact ⟨rfl, rfl, rfl⟩

/-- `buffered_read` keeps the descriptor, the flags and the mode, for every
instance state, count, fuel and answer of the operating system. -/
theorem buffered_read_handle (B fuel : Nat) (bf : buffered_file_t) (os : OS)
    (buf : List Byte) (count : Nat) (r : Int) (bf2 : buffered_file_t) (os2 : OS)
    (buf2 : List Byte)
    (hrun : buffered_read B fuel bf os buf count = some (r, bf2, os2, buf2)) :
    SameHandle bf bf2 := by
  rw [buffered_read_eq] at hrun
  have hfl := buffered_flush_handle bf os
  unfold SameHandle at hfl
  split_ifs at hrun
  · simp only [Option.some.injEq, Prod.mk.injEq] at hrun
    rw [← hrun.2.1]
    exact hfl
  · rcases hloop : read_loop B count fuel (buffered_flush bf os).2.1 (buffered_flush bf os).2.2
        buf 0 with _ | ⟨br, bf1, os1, buf1⟩
    · rw [hloop] at hrun
      simp at hrun
    · rw [hloop] at hrun
      have h1 := read_loop_handle B count fuel _ _ _ _ _ _ _ _ hloop
      unfold SameHandle at h1 ⊢
      simp only [] at hrun
      split_ifs at hrun
      all_goals
        simp only [Option.some.injEq, Prod.mk.injEq] at hrun
        rw [← hrun.2.1]
        exact ⟨h1.1.trans hfl.1, h1.2.1.trans hfl.2.1, h1.2.2.trans hfl.2.2⟩

/-- C15 (the mode, the flags and the descriptor are fixed after open): for every
instance state, every count, every fuel and every answer of the operating
system, the instance after `buffered_flush`, after `buffered_write` (both modes,
whatever it returns) and after `buffered_read` (whatever it returns) has the
`preappend`, `flags` and `fd` fields of the instance before. -/
theorem handle_fields_never_change (B : Nat) :
    (∀ (bf : buffered_file_t) (os : OS),
      (buffered_flush bf os).2.1.preappend = bf.preappend ∧
      (buffered_flush bf os).2.1.flags = bf.flags ∧
      (buffered_flush bf os).2.1.fd = bf.fd) ∧
    (∀ (fuel : Nat) (bf : buffered_file_t) (os : OS) (buf : List Byte) (count : Nat)
        (r : Int) (bf2 : buffered_file_t) (os2 : OS),
      buffered_write B fuel bf os buf count = some (r, bf2, os2) →
      bf2.preappend = bf.preappend ∧ bf2.flags = bf.flags ∧ bf2.fd = bf.fd) ∧
    (∀ (fuel : Nat) (bf : buffered_file_t) (os : OS) (buf : List Byte) (count : Nat)
        (r : Int) (bf2 : buffered_file_t) (os2 : OS) (buf2 : List Byte),
      buffered_read B fuel bf os buf count = some (r, bf2, os2, buf2) →
      bf2.preappend = bf.preappend ∧ bf2.flags = bf.flags ∧ bf2.fd = bf.fd) := by
  refine ⟨fun bf os => ?_, fun fuel bf os buf count r bf2 os2 hrun => ?_,
    fun fuel bf os buf count r bf2 os2 buf2 hrun => ?_⟩
  · have h := buffered_flush_handle bf os
    unfold SameHandle at h
    exact ⟨h.2.2, h.2.1, h.1⟩
  · have h := buffered_write_handle B fuel bf os buf count r bf2 os2 hrun
    unfold SameHandle at h
    exact ⟨h.2.2, h.2.1, h.1⟩
  · have h := buffered_read_handle B fuel bf os buf count r bf2 os2 buf2 hrun
    unfold SameHandle at h
    exact ⟨h.2.2, h.2.1, h.1⟩

/-- Witness for C15: buffer size 4, a write of three bytes on a fresh instance
opened with flags 2, and a read of two bytes from a file of three. -/
theorem handle_fields_never_change_witness :
    (buffered_write 4 3 (fresh_instance 4 0 2 0) (boot []) [1, 2, 3] 3
      = some (3, { fresh_instance 4 0 2 0 with
                   write_buffer := [1, 2, 3, 0]
                   write_buffer_pos := 3
                   last_operation := 1 }, boot [])) ∧
    ({ fresh_instance 4 0 2 0 with
        write_buffer := [1, 2, 3, 0]
        write_buffer_pos := 3
        last_operation := 1 }.preappend = (fresh_instance 4 0 2 0).preappend ∧
     { fresh_instance 4 0 2 0 with
        write_buffer := [1, 2, 3, 0]
        write_buffer_pos := 3
        last_operation := 1 }.flags = (fresh_instance 4 0 2 0).flags ∧
     { fresh_instance 4 0 2 0 with
        write_buffer := [1, 2, 3, 0]
        write_buffer_pos := 3
        last_operation := 1 }.fd = (fresh_instance 4 0 2 0).fd) :=
  ⟨by decide,
   (handle_fields_never_change 4).2.1 3 (fresh_instance 4 0 2 0) (boot []) [1, 2, 3] 3 3
     { fresh_instance 4 0 2 0 with
       write_buffer := [1, 2, 3, 0]
       write_buffer_pos := 3
       last_operation := 1 } (boot []) (by decide)⟩

/-! ## A write is all or nothing -/

theorem wrote_no_call_fails {os1 os2 : OS} {d : List Byte} (h : Wrote os1 os2 d)
    (hh : no_call_fails os1) : no_call_fails os2 :=
  ⟨h.full, by rw [h.read_script]; exact hh.2.1, by rw [h.seek_script]; exact hh.2.2.1,
    by rw [h.alloc_script]; exact hh.2.2.2⟩

theorem os_lseek_set_no_fail {os : OS} (h : no_call_fails os) :
    ∃ os2, os_lseek_set os = ((0 : Int), os2) ∧ no_call_fails os2 := by
  have hn := no_error_next h.2.2.1
  refine ⟨(os_lseek_set os).2, ?_, ?_⟩ <;> unfold os_lseek_set <;> split
  · rename_i he; exact absurd he hn
  · rfl
  · rename_i he; exact absurd he hn
  · exact ⟨h.1, h.2.1, no_error_tail h.2.2.1, h.2.2.2⟩

theorem os_lseek_end_no_fail {os : OS} (h : no_call_fails os) :
    ∃ os2, os_lseek_end os = ((os.content.length : Int), os2) ∧ no_call_fails os2 := by
  have hn := no_error_next h.2.2.1
  refine ⟨(os_lseek_end os).2, ?_, ?_⟩ <;> unfold os_lseek_end <;> split
  · rename_i he; exact absurd he hn
  · rfl
  · rename_i he; exact absurd he hn
  · exact ⟨h.1, h.2.1, no_error_tail h.2.2.1, h.2.2.2⟩

theorem os_malloc_no_fail {os : OS} (h : no_call_fails os) (b : Block) :
    ∃ os2, os_malloc os b = (true, os2) ∧ no_call_fails os2 := by
  have hn := no_error_next h.2.2.2
  refine ⟨(os_malloc os b).2, ?_, ?_⟩ <;> unfold os_malloc <;> split
  · rename_i he; exact absurd he hn
  · rfl
  · rename_i he; exact absurd he hn
  · exact ⟨h.1, h.2.1, h.2.2.1, no_error_tail h.2.2.2⟩

/-- A `read` that reports no error returns the number of bytes it stored. -/
theorem os_read_no_fail {os : OS} (h : no_call_fails os) (count : Nat) :
    ∃ data os2, os_read os count = ((data.length : Int), data, os2) ∧ no_call_fails os2 := by
  have hn := no_error_next h.2.1
  have hs : no_call_fails (os_read os count).2.2 := by
    unfold os_read
    split
    · rename_i he; exact absurd he hn
    · exact ⟨h.1, no_error_tail h.2.1, h.2.2.1, h.2.2.2⟩
    · exact ⟨h.1, no_error_tail h.2.1, h.2.2.1, h.2.2.2⟩
  refine ⟨(os_read os count).2.1, (os_read os count).2.2, ?_, hs⟩
  unfold os_read
  split
  · rename_i he; exact absurd he hn
  · rfl
  · rfl

theorem os_free_no_fail {os : OS} (h : no_call_fails os) (b : Block) :
    no_call_fails (os_free os b) := h

/-- The seek at the start of `buffered_write` when no call fails. -/
theorem mode_switch_no_fail (bf : buffered_file_t) {os : OS} (h : no_call_fails os) :
    ∃ (v : Int) (os2 : OS),
      (if bf.last_operation = 0 then os_lseek_end os else ((0 : Int), os)) = (v, os2) ∧
      ¬ (v = -1) ∧ no_call_fails os2 := by
  by_cases hl : bf.last_operation = 0
  · obtain ⟨os2, he, hh⟩ := os_lseek_end_no_fail h
    exact ⟨_, os2, by rw [if_pos hl, he], by omega, hh⟩
  · exact ⟨0, os, by rw [if_neg hl], by decide, h⟩

/-- When no call fails, `buffered_write` returns `count` and marks the last
operation as a write, in both modes. -/
theorem buffered_write_no_fail (B : Nat) (hB : 0 < B) (hM : B < SIZE_MODULUS)
    (fuel : Nat) (bf : buffered_file_t) (os : OS) (buf : List Byte) (count : Nat)
    (hc : count ≤ buf.length) (hfuel : count ≤ fuel) (hh : no_call_fails os)
    (hlen : bf.write_buffer.length = B) (hpos : bf.write_buffer_pos ≤ B) :
    ∃ bf2 os2,
      buffered_write B fuel bf os buf count = some ((count : Int), bf2, os2) ∧
      bf2.last_operation = 1 ∧ no_call_fails os2 := by
  obtain ⟨v, osA, eA, hv, hA⟩ := mode_switch_no_fail bf hh
  by_cases hpre : bf.preappend = 0
  · obtain ⟨wb, pos, osF, d, eF, hWF, _, _, _⟩ :=
      write_loop_full B hB hM buf count hc fuel bf osA 0 (Nat.zero_le _) (by omega) hA.1 hlen hpos
    refine ⟨{ bf with write_buffer := wb, write_buffer_pos := pos, last_operation := 1 }, osF,
      ?_, ?_, wrote_no_call_fails hWF hA⟩
    · rw [buffered_write_plain_eq B fuel bf os buf count hpre, eA]
      simp only [hv, if_false, eF]
    · rfl
  · obtain ⟨osB, eB, hB'⟩ := os_lseek_set_no_fail hA
    obtain ⟨osC, eC, hC⟩ := os_malloc_no_fail hB' Block.temp_buf
    obtain ⟨data, osD, eD, hD⟩ := os_read_no_fail hC B
    obtain ⟨osE, eE, hE⟩ := os_lseek_set_no_fail hD
    obtain ⟨wb, pos, osF, d, eF, hWF, hwb, hposB, _⟩ :=
      write_loop_full B hB hM buf count hc fuel bf osE 0 (Nat.zero_le _) (by omega) hE.1 hlen hpos
    obtain ⟨osG, eG, hWG⟩ := buffered_flush_full
      { bf with write_buffer := wb, write_buffer_pos := pos } hWF.full
      (show pos ≤ wb.length by omega)
    have hG := wrote_no_call_fails hWG (wrote_no_call_fails hWF hE)
    have hlast : ∃ w osH,
        (if (data.length : Int) > 0 then os_write osG data (data.length : Int).toNat
          else ((0 : Int), osG)) = (w, osH) ∧ ¬ (w = -1) ∧ no_call_fails osH := by
      by_cases hz : (data.length : Int) > 0
      · obtain ⟨osH, eH, hWH⟩ := os_write_full hWG.full data data.length (le_refl _)
        exact ⟨_, osH, by rw [if_pos hz, Int.toNat_ofNat, eH], by omega,
          wrote_no_call_fails hWH hG⟩
      · exact ⟨0, osG, by rw [if_neg hz], by decide, hG⟩
    obtain ⟨w, osH, eH, hw, hH⟩ := hlast
    refine ⟨{ bf with write_buffer := wb, write_buffer_pos := 0, last_operation := 1 },
      os_free osH Block.temp_buf, ?_, ?_, os_free_no_fail hH _⟩
    · unfold buffered_write
      have hr : ¬ ((data.length : Int) = -1) := by omega
      simp only [eA, hv, if_false, hpre, ne_eq, not_false_eq_true, if_true, eB, eC, eD, hr, eE,
        eF, eG, eH, hw, Bool.not_true, Bool.false_eq_true]
      simp
    · rfl

/-- C16 (a write is all or nothing): for a buffer size `B` with `0 < B < 2^64`,
every instance satisfying the buffer invariant (buffers of `B` bytes), in
pre-append mode or not, `count` bytes of a caller's buffer and every answer of
the operating system, with fuel `count` or more, `buffered_write` returns; the
value is `-1` or `count`, never a value strictly between 0 and `count`; whenever
it is not `-1` the last operation is marked as a write; and if no underlying
`lseek`, `read`, `write` or `malloc` fails (a `write` that transfers less than
asked counts as failed, a short `read` does not), it is `count` and the last
operation is marked as a write. -/
theorem write_is_all_or_nothing (B : Nat) (hB : 0 < B) (hM : B < SIZE_MODULUS)
    (fuel : Nat) (bf : buffered_file_t) (os : OS) (buf : List Byte) (count : Nat)
    (hc : count ≤ buf.length) (hfuel : count ≤ fuel)
    (hinv : buffer_invariant B bf) (halloc : buffers_allocated B bf) :
    ∃ r bf2 os2,
      buffered_write B fuel bf os buf count = some (r, bf2, os2) ∧
      (r = -1 ∨ r = (count : Int)) ∧
      ¬ (0 < r ∧ r < (count : Int)) ∧
      (r ≠ -1 → bf2.last_operation = 1) ∧
      (no_call_fails os → r = (count : Int) ∧ bf2.last_operation = 1) := by
  obtain ⟨r, bf2, os2, hrun, hr, _, _, _⟩ :=
    buffered_write_total B hB hM fuel bf os buf count hc hfuel halloc.2 hinv.2.2
  refine ⟨r, bf2, os2, hrun, ?_, ?_, ?_, ?_⟩
  · rcases hr with h | ⟨h, _⟩
    · exact Or.inl h
    · exact Or.inr h
  · rcases hr with h | ⟨h, _⟩ <;> omega
  · intro hne
    rcases hr with h | ⟨_, h⟩
    · exact absurd h hne
    · exact h
  · intro hh
    obtain ⟨bf3, os3, hrun3, hlast, _⟩ :=
      buffered_write_no_fail B hB hM fuel bf os buf count hc hfuel hh halloc.2 hinv.2.2
    rw [hrun] at hrun3
    simp only [Option.some.injEq, Prod.mk.injEq] at hrun3
    exact ⟨hrun3.1, by rw [hrun3.2.1]; exact hlast⟩

/-- Witness for C16: buffer size 4, a fresh instance in pre-append mode, a file
of three bytes, a write of five bytes. -/
theorem write_is_all_or_nothing_witness :
    ∃ r bf2 os2,
      buffered_write 4 5 (fresh_instance 4 0 2 1) (boot [1, 2, 3]) [10, 11, 12, 13, 14] 5
        = some (r, bf2, os2) ∧
      (r = -1 ∨ r = ((5 : Nat) : Int)) ∧
      ¬ (0 < r ∧ r < ((5 : Nat) : Int)) ∧
      (r ≠ -1 → bf2.last_operation = 1) ∧
      (no_call_fails (boot [1, 2, 3]) → r = ((5 : Nat) : Int) ∧ bf2.last_operation = 1) :=
  write_is_all_or_nothing 4 (by decide) (by decide) 5 (fresh_instance 4 0 2 1) (boot [1, 2, 3])
    [10, 11, 12, 13, 14] 5 (by decide) (by decide) ⟨by decide, by decide, by decide⟩
    ⟨by decide, by decide⟩

/-! ## The last write of a pre-append -/

/-- C17 (code): buffer size 4, an instance in pre-append mode on a file holding
`[1, 2, 3]`, and an operating system whose second `write` transfers one byte only.
`buffered_write` of the one byte `[10]` saves the three old bytes, flushes the
new byte in full, then asks `write` for the three old bytes, of which one is
transferred: it returns 1, not `-1`, and the file holds `[10, 1, 3]`, so the old
bytes `2` and `3` were not written after the new byte. -/
theorem preappend_short_final_write_reported_as_success :
    (buffered_write 4 1 (fresh_instance 4 0 2 1)
        (boot_scripted [1, 2, 3] [] [] [Outcome.full, Outcome.short 1] []) [10] 1).map
        (fun r => (r.1, r.2.2.content, writes_issued r.2.2))
      = some (1, [10, 1, 3], [[10], [1, 2, 3]]) := by
  simp [buffered_write, write_loop, buffered_flush, os_lseek_set, os_malloc, os_read, os_write,
    os_free, next_outcome, write_at, memcpy, size_sub, SIZE_MODULUS, fresh_instance,
    boot_scripted, boot, writes_issued]

/-! ## What a write in pre-append mode leaves in the file -/

/-- One iteration of the copy loop of `buffered_write`, by cases. -/
theorem write_iteration_eq (B : Nat) (buf : List Byte) (count : Nat) (bf : buffered_file_t)
    (os : OS) (bw : Nat) :
    write_iteration B buf count bf os bw =
      if size_sub B bf.write_buffer_pos = 0 then
        if (buffered_flush bf os).1 = -1 then
          (true, 0, (buffered_flush bf os).2.1, (buffered_flush bf os).2.2)
        else
          (false, (if count - bw < B then count - bw else B),
            { (buffered_flush bf os).2.1 with
              write_buffer := memcpy (buffered_flush bf os).2.1.write_buffer
                (buffered_flush bf os).2.1.write_buffer_pos buf bw
                (if count - bw < B then count - bw else B)
              write_buffer_pos := (buffered_flush bf os).2.1.write_buffer_pos
                + (if count - bw < B then count - bw else B) },
            (buffered_flush bf os).2.2)
      else
        (false,
          (if count - bw < size_sub B bf.write_buffer_pos then count - bw
            else size_sub B bf.write_buffer_pos),
          { bf with
            write_buffer := memcpy bf.write_buffer bf.write_buffer_pos buf bw
              (if count - bw < size_sub B bf.write_buffer_pos then count - bw
                else size_sub B bf.write_buffer_pos)
            write_buffer_pos := bf.write_buffer_pos
              + (if count - bw < size_sub B bf.write_buffer_pos then count - bw
                else size_sub B bf.write_buffer_pos) },
          os) := by
  unfold write_iteration
  simp only []
  split_ifs <;> simp_all

/-- The copy loop of `buffered_write` is the repetition of its iteration. -/
theorem write_loop_iteration (B : Nat) (buf : List Byte) (count fuel : Nat)
    (bf : buffered_file_t) (os : OS) (bw : Nat) (h : bw < count) :
    write_loop B buf count (fuel + 1) bf os bw =
      if (write_iteration B buf count bf os bw).1 then
        some (false, bw, (write_iteration B buf count bf os bw).2.2.1,
          (write_iteration B buf count bf os bw).2.2.2)
      else
        write_loop B buf count fuel (write_iteration B buf count bf os bw).2.2.1
          (write_iteration B buf count bf os bw).2.2.2
          (bw + (write_iteration B buf count bf os bw).2.1) := by
  rw [write_loop_succ B buf count fuel bf os bw h, write_iteration_eq]
  split_ifs <;> simp_all

/-- An iteration of the copy loop of `buffered_write` that does not leave the
loop copies one byte or more, not more than what is left, and keeps
`write_buffer_pos ≤ B`; the subtraction `BUFFER_SIZE - write_buffer_pos` does
not wrap around. -/
theorem write_iteration_progress (B : Nat) (hB : 0 < B) (hM : B < SIZE_MODULUS)
    (buf : List Byte) (count : Nat) (bf : buffered_file_t) (os : OS) (bw : Nat)
    (h : bw < count) (hpos : bf.write_buffer_pos ≤ B) :
    ((size_sub B bf.write_buffer_pos : Nat) : Int) = (B : Int) - (bf.write_buffer_pos : Int) ∧
    ((write_iteration B buf count bf os bw).1 = false →
      1 ≤ (write_iteration B buf count bf os bw).2.1 ∧
      bw + (write_iteration B buf count bf os bw).2.1 ≤ count ∧
      (write_iteration B buf count bf os bw).2.2.1.write_buffer_pos ≤ B) := by
  have hs := size_sub_of_le hpos hM
  refine ⟨by rw [hs]; omega, ?_⟩
  rw [write_iteration_eq]
  obtain ⟨hres, _, _, _⟩ := buffered_flush_spec bf os
  by_cases h0 : size_sub B bf.write_buffer_pos = 0
  · rw [if_pos h0]
    by_cases hf : (buffered_flush bf os).1 = -1
    · rw [if_pos hf]
      intro hc
      exact absurd hc (by simp)
    · rw [if_neg hf]
      intro _
      rcases hres with ⟨h1, _, _⟩ | ⟨_, h2⟩
      · exact absurd h1 hf
      · rw [h2]
        simp only []
        split_ifs <;> omega
  · rw [if_neg h0]
    intro _
    simp only []
    split_ifs <;> omega

/-- The copy loop of `buffered_write` ends within `count - bytes_written`
iterations, for every instance with `write_buffer_pos ≤ B`. -/
theorem write_loop_terminates (B : Nat) (hB : 0 < B) (hM : B < SIZE_MODULUS) (buf : List Byte)
    (count : Nat) :
    ∀ (fuel : Nat) (bf : buffered_file_t) (os : OS) (bw : Nat),
      count ≤ bw + fuel → bf.write_buffer_pos ≤ B →
      ∃ res, write_loop B buf count fuel bf os bw = some res := by
  intro fuel
  induction fuel with
  | zero =>
    intro bf os bw hfuel _
    exact ⟨_, write_loop_done B buf count 0 bf os bw (by omega)⟩
  | succ fuel ih =>
    intro bf os bw hfuel hpos
    by_cases h : bw < count
    · rw [write_loop_iteration B buf count fuel bf os bw h]
      obtain ⟨_, hprog⟩ := write_iteration_progress B hB hM buf count bf os bw h hpos
      cases hex : (write_iteration B buf count bf os bw).1 with
      | true => exact ⟨_, by rw [if_pos rfl]⟩
      | false =>
        obtain ⟨h1, _, h3⟩ := hprog hex
        rw [if_neg (by simp)]
        exact ih _ _ _ (by omega) h3
    · exact ⟨_, write_loop_done B buf count (fuel + 1) bf os bw h⟩

/-- The tail of the pre-append branch returns when its copy loop does. -/
theorem preappend_finish_returns (B fuel : Nat) (bf : buffered_file_t) (os4 : OS)
    (buf : List Byte) (count : Nat) (bytes_read : Int) (temp_buf : List Byte)
    (hloop : ∃ res, write_loop B buf count fuel bf os4 0 = some res) :
    ∃ res, preappend_finish B fuel bf os4 buf count bytes_read temp_buf = some res := by
  obtain ⟨⟨ok, bw, bf1, os5⟩, hloop⟩ := hloop
  unfold preappend_finish
  rw [hloop]
  cases ok
  · exact ⟨_, rfl⟩
  · simp only []
    split_ifs <;> exact ⟨_, rfl⟩

/-- With fuel `count`, `buffered_write` returns, in both modes, for every
instance with `write_buffer_pos ≤ B`. -/
theorem buffered_write_terminates (B : Nat) (hB : 0 < B) (hM : B < SIZE_MODULUS)
    (fuel : Nat) (bf : buffered_file_t) (os : OS) (buf : List Byte) (count : Nat)
    (hfuel : count ≤ fuel) (hpos : bf.write_buffer_pos ≤ B) :
    ∃ res, buffered_write B fuel bf os buf count = some res := by
  by_cases hpre : bf.preappend = 0
  · rw [buffered_write_plain_eq B fuel bf os buf count hpre]
    generalize (if bf.last_operation = 0 then os_lseek_end os else ((0 : Int), os)) = S
    by_cases hs : S.1 = -1
    · rw [if_pos hs]
      exact ⟨_, rfl⟩
    · rw [if_neg hs]
      obtain ⟨⟨ok, bw, bf1, os5⟩, hloop⟩ :=
        write_loop_terminates B hB hM buf count fuel bf S.2 0 (by omega) hpos
      rw [hloop]
      cases ok <;> exact ⟨_, rfl⟩
  · rcases buffered_write_preappend_cases B fuel bf os buf count hpre with
      ⟨os3, h⟩ | ⟨os4, bytes_read, temp_buf, _, h⟩
    · exact ⟨_, h⟩
    · rw [h]
      exact preappend_finish_returns B fuel bf os4 buf count bytes_read temp_buf
        (write_loop_terminates B hB hM buf count fuel bf os4 0 (by omega) hpos)

/-- One iteration of the loop of `buffered_read`, by cases. -/
theorem read_iteration_eq (B : Nat) (count : Nat) (bf : buffered_file_t) (os : OS)
    (buf : List Byte) (br : Nat) :
    read_iteration B count bf os buf br =
      if (refill B bf os).1 then (true, 0, (refill B bf os).2.1, (refill B bf os).2.2, buf)
      else
        (false,
          (if count - br < size_sub (refill B bf os).2.1.read_buffer_size
                (refill B bf os).2.1.read_buffer_pos
            then count - br
            else size_sub (refill B bf os).2.1.read_buffer_size
                (refill B bf os).2.1.read_buffer_pos),
          { (refill B bf os).2.1 with
            read_buffer_pos := (refill B bf os).2.1.read_buffer_pos +
              (if count - br < size_sub (refill B bf os).2.1.read_buffer_size
                    (refill B bf os).2.1.read_buffer_pos
                then count - br
                else size_sub (refill B bf os).2.1.read_buffer_size
                    (refill B bf os).2.1.read_buffer_pos) },
          (refill B bf os).2.2,
          memcpy buf br (refill B bf os).2.1.read_buffer (refill B bf os).2.1.read_buffer_pos
            (if count - br < size_sub (refill B bf os).2.1.read_buffer_size
                  (refill B bf os).2.1.read_buffer_pos
              then count - br
              else size_sub (refill B bf os).2.1.read_buffer_size
                  (refill B bf os).2.1.read_buffer_pos)) := by
  unfold read_iteration
  rfl

/-- The loop of `buffered_read` is the repetition of its iteration. -/
theorem read_loop_iteration (B : Nat) (count fuel : Nat) (bf : buffered_file_t) (os : OS)
    (buf : List Byte) (br : Nat) (h : br < count) :
    read_loop B count (fuel + 1) bf os buf br =
      if (read_iteration B count bf os buf br).1 then
        some (br, (read_iteration B count bf os buf br).2.2.1,
          (read_iteration B count bf os buf br).2.2.2.1,
          (read_iteration B count bf os buf br).2.2.2.2)
      else
        read_loop B count fuel (read_iteration B count bf os buf br).2.2.1
          (read_iteration B count bf os buf br).2.2.2.1
          (read_iteration B count bf os buf br).2.2.2.2
          (br + (read_iteration B count bf os buf br).2.1) := by
  rw [read_loop_succ B count fuel bf os buf br h, read_iteration_eq]
  split_ifs <;> simp_all

/-- What the refill step gives for the positions, whatever the `read` answers:
the size stays at most `B`, and the position is below the size unless the loop
is left. -/
theorem refill_positions (B : Nat) (bf : buffered_file_t) (os : OS)
    (hsize : bf.read_buffer_size ≤ B) :
    (refill B bf os).2.1.read_buffer_size ≤ B ∧
    ((refill B bf os).1 = false →
      (refill B bf os).2.1.read_buffer_pos < (refill B bf os).2.1.read_buffer_size) := by
  obtain ⟨_, hdl, hv⟩ := os_read_spec os B
  rw [refill_eq]
  split_ifs with h1 h2
  · exact ⟨hsize, by simp⟩
  · refine ⟨?_, fun _ => ?_⟩
    · simp only []
      omega
    · simp only []
      omega
  · exact ⟨hsize, fun _ => by simp only []; omega⟩

/-- An iteration of the loop of `buffered_read` that does not leave the loop
copies one byte or more, not more than what is left, and keeps
`read_buffer_pos ≤ read_buffer_size ≤ B`; the subtraction
`read_buffer_size - read_buffer_pos` does not wrap around. -/
theorem read_iteration_progress (B : Nat) (hM : B < SIZE_MODULUS) (count : Nat)
    (bf : buffered_file_t) (os : OS) (buf : List Byte) (br : Nat)
    (h : br < count) (hsize : bf.read_buffer_size ≤ B) :
    (read_iteration B count bf os buf br).2.2.1.read_buffer_size ≤ B ∧
    ((read_iteration B count bf os buf br).1 = false →
      ((size_sub (refill B bf os).2.1.read_buffer_size
          (refill B bf os).2.1.read_buffer_pos : Nat) : Int)
        = ((refill B bf os).2.1.read_buffer_size : Int)
          - ((refill B bf os).2.1.read_buffer_pos : Int) ∧
      1 ≤ (read_iteration B count bf os buf br).2.1 ∧
      br + (read_iteration B count bf os buf br).2.1 ≤ count ∧
      (read_iteration B count bf os buf br).2.2.1.read_buffer_pos
        ≤ (read_iteration B count bf os buf br).2.2.1.read_buffer_size) := by
  obtain ⟨hsz, hlt⟩ := refill_positions B bf os hsize
  rw [read_iteration_eq]
  cases hstop : (refill B bf os).1 with
  | true =>
    rw [if_pos rfl]
    exact ⟨hsz, fun hc => absurd hc (by simp)⟩
  | false =>
    rw [if_neg (by simp)]
    have hlt2 := hlt hstop
    have hs := size_sub_of_le (Nat.le_of_lt hlt2) (Nat.lt_of_le_of_lt hsz hM)
    refine ⟨hsz, fun _ => ⟨by rw [hs]; omega, ?_, ?_, ?_⟩⟩
    · simp only []
      split_ifs <;> omega
    · simp only []
      split_ifs <;> omega
    · simp only []
      split_ifs <;> omega

/-- The loop of `buffered_read` ends within `count - bytes_read` iterations, for
every instance with `read_buffer_size ≤ B`. -/
theorem read_loop_terminates (B : Nat) (hM : B < SIZE_MODULUS) (count : Nat) :
    ∀ (fuel : Nat) (bf : buffered_file_t) (os : OS) (buf : List Byte) (br : Nat),
      count ≤ br + fuel → bf.read_buffer_size ≤ B →
      ∃ res, read_loop B count fuel bf os buf br = some res := by
  intro fuel
  induction fuel with
  | zero =>
    intro bf os buf br hfuel _
    exact ⟨_, read_loop_done B count 0 bf os buf br (by omega)⟩
  | succ fuel ih =>
    intro bf os buf br hfuel hsize
    by_cases h : br < count
    · rw [read_loop_iteration B count fuel bf os buf br h]
      obtain ⟨hsz, hprog⟩ := read_iteration_progress B hM count bf os buf br h hsize
      cases hex : (read_iteration B count bf os buf br).1 with
      | true => exact ⟨_, by rw [if_pos rfl]⟩
      | false =>
        obtain ⟨_, h1, _, _⟩ := hprog hex
        rw [if_neg (by simp)]
        exact ih _ _ _ _ (by omega) hsz
    · exact ⟨_, read_loop_done B count (fuel + 1) bf os buf br h⟩

/-- With fuel `count`, `buffered_read` returns, for every instance with
`read_buffer_size ≤ B`. -/
theorem buffered_read_terminates (B : Nat) (hM : B < SIZE_MODULUS) (fuel : Nat)
    (bf : buffered_file_t) (os : OS) (buf : List Byte) (count : Nat)
    (hfuel : count ≤ fuel) (hsize : bf.read_buffer_size ≤ B) :
    ∃ res, buffered_read B fuel bf os buf count = some res := by
  rw [buffered_read_eq]
  by_cases hf : (buffered_flush bf os).1 = -1
  · rw [if_pos hf]
    exact ⟨_, rfl⟩
  · rw [if_neg hf]
    have hsz : (buffered_flush bf os).2.1.read_buffer_size ≤ B := by
      rw [buffered_flush_bf]
      exact hsize
    obtain ⟨⟨r, bf1, os1, buf1⟩, hloop⟩ :=
      read_loop_terminates B hM count fuel (buffered_flush bf os).2.1 (buffered_flush bf os).2.2
        buf 0 (by omega) hsz
    rw [hloop]
    simp only []
    split_ifs <;> exact ⟨_, rfl⟩

/-- C20 (the loops terminate with progress): for a buffer size `B` with
`0 < B < 2^64` and every `count`.  The copy loop of `buffered_write` (the same
in both modes) is the repetition of `write_iteration`; on every instance with
`write_buffer_pos ≤ B`, `BUFFER_SIZE - write_buffer_pos` does not wrap around,
and an iteration that does not leave the loop copies `to_write ≥ 1` bytes, not
more than are left, and keeps `write_buffer_pos ≤ B`; so the loop ends within
`count` iterations (fuel `count` is enough) and `buffered_write` returns, in
both modes, whatever the operating system answers.  The loop of `buffered_read`
is the repetition of `read_iteration`; on every instance with
`read_buffer_size ≤ B`, an iteration that does not leave the loop has
`read_buffer_size - read_buffer_pos` not wrapping around, copies `to_read ≥ 1`
bytes, not more than are left, and keeps `read_buffer_pos ≤ read_buffer_size ≤ B`;
so the loop ends within `count` iterations and `buffered_read` returns. -/
theorem loops_terminate_with_progress (B : Nat) (hB : 0 < B) (hM : B < SIZE_MODULUS)
    (count : Nat) :
    (∀ (buf : List Byte) (fuel : Nat) (bf : buffered_file_t) (os : OS) (bw : Nat),
      bw < count →
      write_loop B buf count (fuel + 1) bf os bw =
        if (write_iteration B buf count bf os bw).1 then
          some (false, bw, (write_iteration B buf count bf os bw).2.2.1,
            (write_iteration B buf count bf os bw).2.2.2)
        else
          write_loop B buf count fuel (write_iteration B buf count bf os bw).2.2.1
            (write_iteration B buf count bf os bw).2.2.2
            (bw + (write_iteration B buf count bf os bw).2.1)) ∧
    (∀ (buf : List Byte) (bf : buffered_file_t) (os : OS) (bw : Nat),
      bw < count → bf.write_buffer_pos ≤ B →
      ((size_sub B bf.write_buffer_pos : Nat) : Int)
        = (B : Int) - (bf.write_buffer_pos : Int) ∧
      ((write_iteration B buf count bf os bw).1 = false →
        1 ≤ (write_iteration B buf count bf os bw).2.1 ∧
        bw + (write_iteration B buf count bf os bw).2.1 ≤ count ∧
        (write_iteration B buf count bf os bw).2.2.1.write_buffer_pos ≤ B)) ∧
    (∀ (buf : List Byte) (bf : buffered_file_t) (os : OS),
      bf.write_buffer_pos ≤ B →
      (∃ res, write_loop B buf count count bf os 0 = some res) ∧
      (∃ res, buffered_write B count bf os buf count = some res)) ∧
    (∀ (buf : List Byte) (fuel : Nat) (bf : buffered_file_t) (os : OS) (br : Nat),
      br < count →
      read_loop B count (fuel + 1) bf os buf br =
        if (read_iteration B count bf os buf br).1 then
          some (br, (read_iteration B count bf os buf br).2.2.1,
            (read_iteration B count bf os buf br).2.2.2.1,
            (read_iteration B count bf os buf br).2.2.2.2)
        else
          read_loop B count fuel (read_iteration B count bf os buf br).2.2.1
            (read_iteration B count bf os buf br).2.2.2.1
            (read_iteration B count bf os buf br).2.2.2.2
            (br + (read_iteration B count bf os buf br).2.1)) ∧
    (∀ (buf : List Byte) (bf : buffered_file_t) (os : OS) (br : Nat),
      br < count → bf.read_buffer_size ≤ B →
      (read_iteration B count bf os buf br).2.2.1.read_buffer_size ≤ B ∧
      ((read_iteration B count bf os buf br).1 = false →
        ((size_sub (refill B bf os).2.1.read_buffer_size
            (refill B bf os).2.1.read_buffer_pos : Nat) : Int)
          = ((refill B bf os).2.1.read_buffer_size : Int)
            - ((refill B bf os).2.1.read_buffer_pos : Int) ∧
        1 ≤ (read_iteration B count bf os buf br).2.1 ∧
        br + (read_iteration B count bf os buf br).2.1 ≤ count ∧
        (read_iteration B count bf os buf br).2.2.1.read_buffer_pos
          ≤ (read_iteration B count bf os buf br).2.2.1.read_buffer_size)) ∧
    (∀ (buf : List Byte) (bf : buffered_file_t) (os : OS),
      bf.read_buffer_size ≤ B →
      (∃ res, read_loop B count count bf os buf 0 = some res) ∧
      (∃ res, buffered_read B count bf os buf count = some res)) :=
  ⟨fun buf fuel bf os bw h => write_loop_iteration B buf count fuel bf os bw h,
   fun buf bf os bw h hpos => write_iteration_progress B hB hM buf count bf os bw h hpos,
   fun buf bf os hpos =>
     ⟨write_loop_terminates B hB hM buf count count bf os 0 (by omega) hpos,
      buffered_write_terminates B hB hM count bf os buf count (le_refl _) hpos⟩,
   fun buf fuel bf os br h => read_loop_iteration B count fuel bf os buf br h,
   fun buf bf os br h hsize => read_iteration_progress B hM count bf os buf br h hsize,
   fun buf bf os hsize =>
     ⟨read_loop_terminates B hM count count bf os buf 0 (by omega) hsize,
      buffered_read_terminates B hM count bf os buf count (le_refl _) hsize⟩⟩

/-- Witness for C20: buffer size 4, `count = 5`, a fresh instance in pre-append
mode on a file of three bytes. -/
theorem loops_terminate_with_progress_witness :
    (∃ res, write_loop 4 [10, 11, 12, 13, 14] 5 5 (fresh_instance 4 0 2 1) (boot [1, 2, 3]) 0
      = some res) ∧
    (∃ res, buffered_write 4 5 (fresh_instance 4 0 2 1) (boot [1, 2, 3]) [10, 11, 12, 13, 14] 5
      = some res) :=
  (loops_terminate_with_progress 4 (by decide) (by decide) 5).2.2.1 [10, 11, 12, 13, 14]
    (fresh_instance 4 0 2 1) (boot [1, 2, 3]) (by decide)

end BufferedOpen
